import Mathlib

/-!
# Expensy: split-expense settlement

A shallow embedding of the split-expense core of the Expensy client:

* `src/models/SplitExpenseModel.js` (`createSplitExpense`, `createParticipant`,
  `updateParticipantStatus`, `calculateSplitStatus`, `getSplitSummary`),
* `src/components/split/SplitExpenseForm.js` (`updateShares`, the share check of
  `handleSubmit`),
* `src/context/SplitExpenseContext.js` (`ensureStringId`, the steps of
  `createNewSplitExpense`, `getSplitExpense`, `updatePaymentStatus`, `addContact`,
  `sendPaymentReminder`),
* `src/context/ExpenseContext.js` (`addExpense`) and
  `src/services/EmailService.js` (`sendSplitExpenseEmail`).

Modelling conventions.

* JavaScript numbers are exact rationals (`ℚ`): rounding of IEEE doubles, `NaN`
  and the infinities are not represented.  Every quotient formed below has a
  divisor that the source guards (`unassignedCount > 0`, a non-empty list inside
  `map`) or that the theorems assume positive (`amount`).
* A field that may be `null`/`undefined` is an `Option`; `none` stands for both.
* The clock (`Date.now()`, `new Date().toISOString()`), the random id generator
  and the remote document store are explicit parameters.
* Strings are Lean strings; `toLowerCase()` is modelled on the letters `A`-`Z`.
-/

namespace Expensy

/-! ## Data model -/

/-- An identifier as the client meets it: a number (`Date.now()`) or a string
(a store-assigned document id, or a generated `p_...` participant id). -/
inductive JsId where
  | num (n : Nat)
  | str (s : String)
deriving DecidableEq

/-- The participant object of `SplitExpenseModel.js` (typedef `Participant`).
A missing `status` is the empty string, which the source treats alike
(`p.status || 'unpaid'`, `p.status === 'paid'`). -/
structure Participant where
  id : Option JsId
  name : String
  email : String
  sharePercentage : Option ℚ
  shareAmount : Option ℚ
  status : String
  paymentMethod : Option String
  paidDate : Option String
deriving DecidableEq

/-- The base expense descriptor handed to `createSplitExpense`. -/
structure Expense where
  id : Option JsId
  amount : ℚ
  category : String
  description : String
  date : String
  userId : String
  receiptImageUrl : Option String
  notes : Option String
deriving DecidableEq

/-- The split expense object built by `createSplitExpense` and cached from the
store.  `participants = none` stands for a missing field or a value that is not
an array. -/
structure SplitExpense where
  id : Option JsId
  expenseId : Option JsId
  createdAt : String
  status : String
  totalAmount : ℚ
  category : String
  description : String
  date : String
  userId : String
  receiptImageUrl : Option String
  participants : Option (List Participant)
  notes : String
deriving DecidableEq

/-- The authenticated user, as far as the split-expense code reads it. -/
structure User where
  uid : String
  email : Option String
  name : Option String
deriving DecidableEq

/-! ## JavaScript helpers -/

/-- The test `!x` on a number-or-null value: true for `null`/`undefined` and `0`. -/
def jsFalsy : Option ℚ → Bool
  | none => true
  | some x => decide (x = 0)

/-- The expression `x || 0` on a number-or-null value. -/
def orZero : Option ℚ → ℚ
  | none => 0
  | some x => x

/-- The test `!s` on a string-or-null value: true for `null`/`undefined` and `''`. -/
def strFalsy : Option String → Bool
  | none => true
  | some s => decide (s = "")

/-- The conversion `String(id)`. -/
def JsId.toStr : JsId → String
  | .num n => toString n
  | .str s => s

/-- The helper `ensureStringId` of `SplitExpenseContext.js`, lines 28-31. -/
def ensureStringId : Option JsId → Option String
  | none => none
  | some i => some i.toStr

/-! ## `SplitExpenseModel.js` -/

/-- The number of participants with `status === 'paid'`
(`participants.filter(p => p.status === 'paid').length`). -/
def paidCount (ps : List Participant) : Nat :=
  (ps.filter fun p => decide (p.status = "paid")).length

/-- The function `calculateSplitStatus`, `SplitExpenseModel.js` lines 113-127.
The argument is `none` for a `null`/`undefined` split. -/
def calculateSplitStatus : Option SplitExpense → String
  | none => "pending"
  | some splitExpense =>
    match splitExpense.participants with
    | none => "pending"
    | some participants =>
      if paidCount participants = 0 then "pending"
      else if paidCount participants = participants.length then "settled"
      else "partial"

/-- The function `createParticipant`, `SplitExpenseModel.js` lines 79-90.  `id` is
the generated identifier (built from `Date.now()` and `Math.random()`). -/
def createParticipant (id : String) (name : String) (email : String)
    (sharePercentage shareAmount : Option ℚ) : Participant :=
  { id := some (.str id)
    name := name
    email := email
    sharePercentage := sharePercentage
    shareAmount := shareAmount
    status := "unpaid"
    paymentMethod := none
    paidDate := none }

/-- The per-participant step of `createSplitExpense` (the callback of
`participants.map`, lines 21-39); `n` is `participants.length`. -/
def calculateParticipant (amount : ℚ) (n : Nat) (participant : Participant) : Participant :=
  if jsFalsy participant.sharePercentage then
    let equalShare : ℚ := 100 / n
    { participant with
      sharePercentage := some equalShare
      shareAmount := some ((amount * equalShare) / 100) }
  else if jsFalsy participant.shareAmount then
    { participant with
      shareAmount := some ((amount * orZero participant.sharePercentage) / 100) }
  else participant

/-- The function `createSplitExpense`, `SplitExpenseModel.js` lines 16-56.
`splitId` is `Date.now()` and `now` is `new Date().toISOString()`. -/
def createSplitExpense (splitId : Nat) (now : String) (expense : Expense)
    (participants : List Participant) : SplitExpense :=
  let calculatedParticipants :=
    participants.map (calculateParticipant expense.amount participants.length)
  { id := some (.num splitId)
    expenseId := expense.id
    createdAt := now
    status := "pending"
    totalAmount := expense.amount
    category := expense.category
    description := expense.description
    date := expense.date
    userId := expense.userId
    receiptImageUrl := if strFalsy expense.receiptImageUrl then none else expense.receiptImageUrl
    participants := some calculatedParticipants
    notes := if strFalsy expense.notes then "" else expense.notes.getD "" }

/-- The function `updateParticipantStatus`, `SplitExpenseModel.js` lines 99-106.
`now` is `new Date().toISOString()`; `paymentMethod` is `none` when the argument
is left out (the default `null`). -/
def updateParticipantStatus (now : String) (participant : Participant) (status : String)
    (paymentMethod : Option String) : Participant :=
  { participant with
    status := status
    paymentMethod := paymentMethod
    paidDate := if status = "paid" then some now else participant.paidDate }

/-- The object returned by `getSplitSummary`. -/
structure SplitSummary where
  totalAmount : ℚ
  paidAmount : ℚ
  pendingAmount : ℚ
  participantCount : Nat
  paidCount : Nat
  status : String
deriving DecidableEq

/-- The summary returned by `getSplitSummary` for a missing split or a participants
field that is not an array, lines 136-143. -/
def zeroedSummary : SplitSummary :=
  { totalAmount := 0
    paidAmount := 0
    pendingAmount := 0
    participantCount := 0
    paidCount := 0
    status := "pending" }

/-- The function `getSplitSummary`, `SplitExpenseModel.js` lines 134-164.  The
argument is `none` for a `null`/`undefined` split. -/
def getSplitSummary : Option SplitExpense → SplitSummary
  | none => zeroedSummary
  | some splitExpense =>
    match splitExpense.participants with
    | none => zeroedSummary
    | some participants =>
      let paidAmount :=
        (participants.filter fun p => decide (p.status = "paid")).foldl
          (fun sum p => sum + orZero p.shareAmount) 0
      let pendingAmount :=
        (participants.filter fun p => decide (p.status ≠ "paid")).foldl
          (fun sum p => sum + orZero p.shareAmount) 0
      let paidCount := (participants.filter fun p => decide (p.status = "paid")).length
      { totalAmount := splitExpense.totalAmount
        paidAmount := paidAmount
        pendingAmount := pendingAmount
        participantCount := participants.length
        paidCount := paidCount
        status := calculateSplitStatus (some splitExpense) }

/-! ## `SplitExpenseForm.js` -/

/-- The sum `participantsList.reduce((sum, p) => sum + (p.sharePercentage || 0), 0)`
of `updateShares`, lines 199-202. -/
def totalAssignedPercentage (participantsList : List Participant) : ℚ :=
  participantsList.foldl (fun sum p => sum + orZero p.sharePercentage) 0

/-- The count `participantsList.filter(p => !p.sharePercentage).length`
(`unassignedCount` of the percentage branch, line 204). -/
def unassignedPercentageCount (participantsList : List Participant) : Nat :=
  (participantsList.filter fun p => jsFalsy p.sharePercentage).length

/-- The sum `participantsList.reduce((sum, p) => sum + (p.shareAmount || 0), 0)`
of `updateShares`, lines 232-235. -/
def totalAssignedAmount (participantsList : List Participant) : ℚ :=
  participantsList.foldl (fun sum p => sum + orZero p.shareAmount) 0

/-- The count `participantsList.filter(p => !p.shareAmount).length`
(`unassignedCount` of the amount branch, line 237). -/
def unassignedAmountCount (participantsList : List Participant) : Nat :=
  (participantsList.filter fun p => jsFalsy p.shareAmount).length

/-- The function `updateShares`, `SplitExpenseForm.js` lines 180-265.
`amount` is `parseFloat(expenseData.amount)`, `none` when the field is empty or
does not parse (the early `return`).  The result is the list handed to
`setParticipants`, `none` when the state is left as it was. -/
def updateShares (amount : Option ℚ) (splitMethod : String)
    (participantsList : List Participant) : Option (List Participant) :=
  match amount with
  | none => none
  | some amount =>
    if splitMethod = "equal" then
      let share : ℚ := amount / participantsList.length
      some (participantsList.map fun p =>
        { p with
          sharePercentage := some (100 / participantsList.length)
          shareAmount := some share })
    else if splitMethod = "percentage" then
      let totalAssigned := totalAssignedPercentage participantsList
      let unassignedCount := unassignedPercentageCount participantsList
      if unassignedCount > 0 ∧ totalAssigned < 100 then
        let remainingPercentage : ℚ := 100 - totalAssigned
        let defaultPercentage : ℚ := remainingPercentage / unassignedCount
        some (participantsList.map fun p =>
          if jsFalsy p.sharePercentage then
            { p with
              sharePercentage := some defaultPercentage
              shareAmount := some ((amount * defaultPercentage) / 100) }
          else
            { p with
              shareAmount := some ((amount * orZero p.sharePercentage) / 100) })
      else
        some (participantsList.map fun p =>
          { p with
            shareAmount := some ((amount * orZero p.sharePercentage) / 100) })
    else if splitMethod = "amount" then
      let totalAssigned := totalAssignedAmount participantsList
      let unassignedCount := unassignedAmountCount participantsList
      if unassignedCount > 0 ∧ totalAssigned < amount then
        let remainingAmount : ℚ := amount - totalAssigned
        let defaultAmount : ℚ := remainingAmount / unassignedCount
        some (participantsList.map fun p =>
          if jsFalsy p.shareAmount then
            { p with
              shareAmount := some defaultAmount
              sharePercentage := some ((defaultAmount / amount) * 100) }
          else
            { p with
              sharePercentage := some ((orZero p.shareAmount / amount) * 100) })
      else
        some (participantsList.map fun p =>
          { p with
            sharePercentage := some ((orZero p.shareAmount / amount) * 100) })
    else
      some participantsList

/-- The sum `participants.reduce((sum, p) => sum + (p.shareAmount || 0), 0)` of
`handleSubmit`, line 306. -/
def totalShareAmount (participants : List Participant) : ℚ :=
  participants.foldl (fun sum p => sum + orZero p.shareAmount) 0

/-- The share check of `handleSubmit`, lines 305-314: the submission goes on
exactly when `Math.abs(totalShareAmount - expenseAmount) > 0.01` is false. -/
def sharesMatch (expenseAmount : ℚ) (participants : List Participant) : Bool :=
  !decide (|totalShareAmount participants - expenseAmount| > 1 / 100)

/-! ## `SplitExpenseContext.js` -/

/-- The test `!p.id` on an identifier: `null`/`undefined`, the number `0` and
the empty string. -/
def idFalsy : Option JsId → Bool
  | none => true
  | some (.num n) => decide (n = 0)
  | some (.str s) => decide (s = "")

/-- The participant normalisation of `createNewSplitExpense`, lines 191-197.
`genId i` is the identifier generated for position `i` when the participant
has none (built from `Date.now()` and `Math.random()` in the source).  On a
number or `null`, `parseFloat(x) || 0` is `x || 0`. -/
def validatedParticipants (genId : Nat → String) (participants : List Participant) :
    List Participant :=
  participants.mapIdx fun i p =>
    { p with
      id := some (.str (match p.id with
        | none => genId i
        | some id => if idFalsy (some id) then genId i else id.toStr))
      shareAmount := some (orZero p.shareAmount)
      sharePercentage := some (orZero p.sharePercentage)
      status := if p.status = "" then "unpaid" else p.status }

/-- The record `newSplitExpense` of `createNewSplitExpense`, lines 239-248:
`createSplitExpense` applied to the expense data, carrying the id returned by
`addExpense` and the user's uid, and to the normalised participants. -/
def newSplitExpense (splitId : Nat) (now : String) (genId : Nat → String)
    (currentUser : User) (expenseData : Expense) (expenseId : String)
    (participants : List Participant) : SplitExpense :=
  createSplitExpense splitId now
    { expenseData with id := some (.str expenseId), userId := currentUser.uid }
    (validatedParticipants genId participants)

/-- The participant object written at `updatedParticipants[participantIndex]` by
`updatePaymentStatus`, lines 455-460. -/
def updatedParticipant (now : String) (status : String) (paymentMethod : Option String)
    (old : Participant) : Participant :=
  { old with
    status := status
    paymentMethod := if strFalsy paymentMethod then old.paymentMethod else paymentMethod
    paidDate := if status = "paid" then some now else old.paidDate }

/-- The remote document store as `updatePaymentStatus` uses it.  `getDoc id` is
`none` when the read throws and `some b` when `docSnap.exists()` is `b`;
`updateDoc id` is `false` when the write throws. -/
structure RemoteStore where
  getDoc : String → Option Bool
  updateDoc : String → Bool

/-- The argument of the `updateDoc` call of `updatePaymentStatus`, lines 481-485. -/
structure PaymentWrite where
  docId : String
  participants : List Participant
  status : String
  updatedAt : String
deriving DecidableEq

/-- The outcome of `updatePaymentStatus`: the returned boolean and the
`updateDoc` call that was issued, if any. -/
structure PaymentResult where
  ok : Bool
  write : Option PaymentWrite
deriving DecidableEq

/-- The function `updatePaymentStatus`, `SplitExpenseContext.js` lines 407-494.
`splitExpenses` is the cached list, `now` is `new Date().toISOString()`.  The
deep copy `JSON.parse(JSON.stringify(...))` is the identity on this data. -/
def updatePaymentStatus (currentUser : Option User) (splitExpenses : List SplitExpense)
    (remote : RemoteStore) (now : String) (splitExpenseId participantId : Option JsId)
    (status : String) (paymentMethod : Option String) : PaymentResult :=
  match currentUser with
  | none => { ok := false, write := none }
  | some _ =>
    let stringExpenseId := ensureStringId splitExpenseId
    let stringParticipantId := ensureStringId participantId
    if strFalsy stringExpenseId || strFalsy stringParticipantId then
      { ok := false, write := none }
    else
      match splitExpenses.find? fun expense =>
          decide (ensureStringId expense.id = stringExpenseId) with
      | none => { ok := false, write := none }
      | some splitExpense =>
        match splitExpense.participants with
        | none => { ok := false, write := none }
        | some participants =>
          match participants.findIdx? fun p =>
              decide (ensureStringId p.id = stringParticipantId) with
          | none => { ok := false, write := none }
          | some participantIndex =>
            let updatedParticipants :=
              participants.modify (updatedParticipant now status paymentMethod)
                participantIndex
            let updatedStatus := calculateSplitStatus
              (some { splitExpense with participants := some updatedParticipants })
            let docId := stringExpenseId.getD ""
            match remote.getDoc docId with
            | none => { ok := false, write := none }
            | some false => { ok := false, write := none }
            | some true =>
              { ok := remote.updateDoc docId
                write := some
                  { docId := docId
                    participants := updatedParticipants
                    status := updatedStatus
                    updatedAt := now } }

/-- The participant list computed by `updatePaymentStatus`, lines 441-460: the
participant at the first index whose id matches `stringParticipantId` is replaced
by its update; `none` when no participant matches (the `false` return). -/
def updatedParticipants (now : String) (status : String) (paymentMethod : Option String)
    (stringParticipantId : Option String) (participants : List Participant) :
    Option (List Participant) :=
  match participants.findIdx? fun p =>
      decide (ensureStringId p.id = stringParticipantId) with
  | none => none
  | some participantIndex =>
    some (participants.modify (updatedParticipant now status paymentMethod) participantIndex)

/-- The characters that `String.prototype.trim` removes (ECMAScript WhiteSpace and
LineTerminator). -/
def isJsWhiteSpace (c : Char) : Bool :=
  decide (c.toNat ∈ [0x09, 0x0A, 0x0B, 0x0C, 0x0D, 0x20, 0xA0, 0x1680, 0x2028, 0x2029,
    0x202F, 0x205F, 0x3000, 0xFEFF]) || (decide (0x2000 ≤ c.toNat) && decide (c.toNat ≤ 0x200A))

/-- The method `trim()` of a string. -/
def trim (s : String) : String :=
  String.mk ((s.data.dropWhile isJsWhiteSpace).reverse.dropWhile isJsWhiteSpace).reverse

/-- The method `toLowerCase()` of a string, on the letters `A`-`Z`; other
characters are left as they are. -/
def toLowerCase (s : String) : String :=
  String.mk (s.data.map Char.toLower)

/-- A contact document.  A missing `email` is the empty string, which the source
treats alike (`c.email && ...`). -/
structure Contact where
  id : String
  name : String
  email : String
  userId : String
  createdAt : String
deriving DecidableEq

/-- The outcome of `addContact`: the returned boolean, the local `contacts` state
and the remote `contacts` collection afterwards. -/
structure ContactResult where
  ok : Bool
  contacts : List Contact
  stored : List Contact
deriving DecidableEq

/-- The tail of `addContact`, lines 544-564: the new contact is written with
`addDoc` and appended to the local state.  `addDoc` is the id the store assigns,
`none` when the write throws. -/
def addNewContact (currentUser : User) (contacts stored : List Contact)
    (addDoc : Option String) (now : String) (name email : String) : ContactResult :=
  match addDoc with
  | none => { ok := false, contacts := contacts, stored := stored }
  | some docId =>
    let newContact : Contact :=
      { id := docId
        name := trim name
        email := if email = "" then "" else trim email
        userId := currentUser.uid
        createdAt := now }
    { ok := true, contacts := contacts ++ [newContact], stored := stored ++ [newContact] }

/-- The function `addContact`, `SplitExpenseContext.js` lines 502-569.  `contacts`
is the local state and `stored` the remote `contacts` collection; `getDocsFails`
says that the `getDocs` query throws; a missing `name` or `email` is the empty
string. -/
def addContact (currentUser : Option User) (contacts stored : List Contact)
    (getDocsFails : Bool) (addDoc : Option String) (now : String) (name email : String) :
    ContactResult :=
  match currentUser with
  | none => { ok := false, contacts := contacts, stored := stored }
  | some currentUser =>
    if name = "" ∨ trim name = "" then
      { ok := false, contacts := contacts, stored := stored }
    else if email ≠ "" ∧ trim email ≠ "" then
      let normalizedEmail := toLowerCase (trim email)
      match contacts.find? fun c =>
          decide (c.email ≠ "") && decide (toLowerCase c.email = normalizedEmail) with
      | some _ => { ok := false, contacts := contacts, stored := stored }
      | none =>
        if getDocsFails then
          { ok := false, contacts := contacts, stored := stored }
        else if (stored.filter fun c =>
            decide (c.userId = currentUser.uid) && decide (c.email = trim email)) ≠ [] then
          { ok := false, contacts := contacts, stored := stored }
        else
          addNewContact currentUser contacts stored addDoc now name email
    else
      addNewContact currentUser contacts stored addDoc now name email

/-- The test `x && ...` on a string-or-null field of the user: the value when it
is a non-empty string. -/
def truthyString : Option String → Option String
  | none => none
  | some s => if s = "" then none else some s

/-- The participant `creatorParticipant` of `createNewSplitExpense`, lines 200-203:
the first participant whose email equals the user's email after lower-casing both,
or whose name equals the user's name. -/
def creatorParticipant (currentUser : User) (validatedParticipants : List Participant) :
    Option Participant :=
  validatedParticipants.find? fun p =>
    (decide (p.email ≠ "") &&
      (match truthyString currentUser.email with
        | none => false
        | some email => decide (toLowerCase p.email = toLowerCase email))) ||
    (decide (p.name ≠ "") &&
      (match truthyString currentUser.name with
        | none => false
        | some name => decide (p.name = name)))

/-- The value `userShare` of `createNewSplitExpense`, lines 206-207:
`creatorParticipant?.shareAmount || (validatedParticipants.length > 0 ?
validatedParticipants[0].shareAmount : 0)`. -/
def userShare (currentUser : User) (validatedParticipants : List Participant) : Option ℚ :=
  let creatorShare := (creatorParticipant currentUser validatedParticipants).bind
    fun p => p.shareAmount
  if jsFalsy creatorShare then
    match validatedParticipants with
    | [] => some 0
    | first :: _ => first.shareAmount
  else creatorShare

/-- The object `baseExpense` of `createNewSplitExpense`, lines 210-226: the expense
data with the split attribution. -/
structure BaseExpense extends Expense where
  isSplit : Bool
  userShare : Option ℚ
  participantCount : Nat
  createdAt : String

/-- The construction of `baseExpense`, `createNewSplitExpense` lines 210-226. -/
def baseExpense (currentUser : User) (now : String) (expenseData : Expense)
    (validatedParticipants : List Participant) : BaseExpense :=
  { expenseData with
    amount := expenseData.amount
    isSplit := true
    userShare := userShare currentUser validatedParticipants
    participantCount := validatedParticipants.length
    userId := currentUser.uid
    notes := some (if strFalsy expenseData.notes
      then "Split with " ++ toString validatedParticipants.length ++ " people"
      else expenseData.notes.getD "")
    createdAt := now }

/-- The document `newExpense` that `addExpense` writes to the `expenses`
collection, `ExpenseContext.js` lines 152-162. -/
structure LedgerExpense where
  category : String
  amount : ℚ
  date : String
  description : String
  userId : String
  createdAt : String
  isSplit : Bool
  userShare : ℚ
deriving DecidableEq

/-- The construction of `newExpense` in `addExpense`, `ExpenseContext.js` lines
152-162.  `now` is `new Date().toISOString()` and `today` its first ten
characters. -/
def newExpense (currentUser : User) (now today : String) (expense : BaseExpense) :
    LedgerExpense :=
  { category := if expense.category = "" then "Other" else expense.category
    amount := expense.amount
    date := if expense.date = "" then today else expense.date
    description := expense.description
    userId := currentUser.uid
    createdAt := now
    isSplit := expense.isSplit
    userShare := if jsFalsy expense.userShare then expense.amount
      else orZero expense.userShare }

/-- The function `addExpense`, `ExpenseContext.js` lines 144-181: the returned id
(`none` for `false`) and the document handed to `addDoc`, if any.  `addDoc` is the
id the store assigns, `none` when the write throws; `budgetCheckFails` says that
`checkBudgetAlerts` throws. -/
def addExpense (currentUser : Option User) (addDoc : Option String)
    (budgetCheckFails : Bool) (now today : String) (expense : BaseExpense) :
    Option String × Option LedgerExpense :=
  match currentUser with
  | none => (none, none)
  | some currentUser =>
    match addDoc with
    | none => (none, some (newExpense currentUser now today expense))
    | some docId =>
      (if budgetCheckFails then none else some docId,
        some (newExpense currentUser now today expense))

/-- The contact-adding step of `createNewSplitExpense`, lines 268-304: the local
`contacts` state after the loop over the normalised participants.  `addDoc i` is
the id the store assigns to the contact of the participant at position `i`, `none`
when that write throws; `now i` is the time of that write. -/
def contactsAfterSplit (currentUser : User) (contacts : List Contact)
    (addDoc : Nat → Option String) (now : Nat → String)
    (validatedParticipants : List Participant) : List Contact :=
  let existingContactEmails :=
    (contacts.map fun c => toLowerCase c.email).filter fun e => decide (e ≠ "")
  validatedParticipants.enum.foldl (fun prev ip =>
    if ip.2.email ≠ "" ∧ toLowerCase ip.2.email ∉ existingContactEmails then
      match addDoc ip.1 with
      | none => prev
      | some contactId =>
        prev ++ [{ id := contactId
                   name := ip.2.name
                   email := ip.2.email
                   userId := currentUser.uid
                   createdAt := now ip.1 }]
    else prev) contacts

/-- The invariant of a contact list: at most one contact per lower-cased, trimmed
non-empty email. -/
def contactsDeduped (contacts : List Contact) : Prop :=
  ((contacts.map fun c => toLowerCase (trim c.email)).filter fun e => decide (e ≠ "")).Nodup

instance (contacts : List Contact) : Decidable (contactsDeduped contacts) :=
  inferInstanceAs (Decidable
    ((contacts.map fun c : Contact => toLowerCase (trim c.email)).filter
      fun e => decide (e ≠ "")).Nodup)

/-- The list `otherParticipants` of `createNewSplitExpense`, lines 307-309: the
participants to whom a new-split notification is sent, in this order. -/
def otherParticipants (currentUser : User) (validatedParticipants : List Participant) :
    List Participant :=
  validatedParticipants.filter fun p =>
    decide (p.email ≠ "") &&
      (match truthyString currentUser.email with
        | none => false
        | some email => decide (toLowerCase p.email ≠ toLowerCase email))

/-- The conversion `String(x)` of an identifier that may be missing; a missing id
prints as 'undefined'. -/
def jsString : Option JsId → String
  | none => "undefined"
  | some id => id.toStr

/-- The function `getSplitExpense`, `SplitExpenseContext.js` lines 393-397. -/
def getSplitExpense (splitExpenses : List SplitExpense) (id : Option JsId) :
    Option SplitExpense :=
  if idFalsy id then none
  else splitExpenses.find? fun expense =>
    decide (ensureStringId expense.id = ensureStringId id)

/-- What the notification dispatcher (`emailjs.send`) does with a request: it
resolves, or it rejects with an optional `text`. -/
inductive SendOutcome where
  | sent
  | failed (text : Option String)
deriving DecidableEq

/-- The object returned by `sendSplitExpenseEmail`. -/
structure EmailResult where
  success : Bool
  message : String
deriving DecidableEq

/-- The function `sendSplitExpenseEmail`, `EmailService.js` lines 26-80.
`participant` is `none` for a `null` participant. -/
def sendSplitExpenseEmail (participant : Option Participant) (outcome : SendOutcome) :
    EmailResult :=
  match participant with
  | none => { success := false, message := "Participant email is missing" }
  | some participant =>
    if participant.email = "" then
      { success := false, message := "Participant email is missing" }
    else
      match outcome with
      | .sent => { success := true, message := "Email sent successfully" }
      | .failed text =>
        { success := false
          message := if strFalsy text then "Failed to send email"
            else "Failed to send email: " ++ text.getD "" }

/-- The outcome of `sendPaymentReminder`: the returned boolean and the `sent` flag
last recorded for the participant in the `emailStatus` map, if any. -/
structure ReminderResult where
  ok : Bool
  sent : Option Bool
deriving DecidableEq

/-- The function `sendPaymentReminder`, `SplitExpenseContext.js` lines 646-790.
`outcome` is what the dispatcher does with the request.  A participants field that
is not an array makes `.find` throw, which the outer `catch` turns into `false`
with a recorded failure. -/
def sendPaymentReminder (currentUser : Option User) (splitExpenses : List SplitExpense)
    (outcome : SendOutcome) (splitExpenseId participantId : Option JsId) : ReminderResult :=
  match currentUser with
  | none => { ok := false, sent := none }
  | some _ =>
    if idFalsy splitExpenseId || idFalsy participantId then
      { ok := false, sent := none }
    else
      let stringExpenseId := jsString splitExpenseId
      match getSplitExpense splitExpenses (some (.str stringExpenseId)) with
      | none => { ok := false, sent := none }
      | some splitExpense =>
        match splitExpense.participants with
        | none => { ok := false, sent := some false }
        | some participants =>
          match participants.find? fun p =>
              decide (jsString p.id = jsString participantId) with
          | none => { ok := false, sent := none }
          | some participant =>
            if participant.email = "" then
              { ok := false, sent := none }
            else
              let result := sendSplitExpenseEmail (some participant) outcome
              { ok := true, sent := some result.success }

/-! ## Sample data -/

/-- A participant with no shares yet, as `createParticipant(name, email)` builds it. -/
def ann : Participant := createParticipant "p_1" "Ann" "ann@example.org" none none

/-- A second participant with no shares yet. -/
def bob : Participant := createParticipant "p_2" "Bob" "bob@example.org" none none

/-- A third participant with no shares yet, without an email. -/
def cyd : Participant := createParticipant "p_3" "Cyd" "" none none

/-- Three unpaid participants with a share of 30 each. -/
def diners : List Participant :=
  [{ ann with sharePercentage := some (100 / 3), shareAmount := some 30 },
   { bob with sharePercentage := some (100 / 3), shareAmount := some 30 },
   { cyd with sharePercentage := some (100 / 3), shareAmount := some 30 }]

/-- The same participants after Ann has paid in cash. -/
def dinersAnnPaid : List Participant :=
  [{ ann with
      sharePercentage := some (100 / 3)
      shareAmount := some 30
      status := "paid"
      paymentMethod := some "cash"
      paidDate := some "2024-05-03T08:00:00.000Z" },
   { bob with sharePercentage := some (100 / 3), shareAmount := some 30 },
   { cyd with sharePercentage := some (100 / 3), shareAmount := some 30 }]

/-- A split of 90 between three unpaid participants of 30 each. -/
def dinner : SplitExpense :=
  { id := some (.str "s1")
    expenseId := some (.str "e1")
    createdAt := "2024-05-01T10:00:00.000Z"
    status := "pending"
    totalAmount := 90
    category := "Food"
    description := "Dinner"
    date := "2024-05-01"
    userId := "u1"
    receiptImageUrl := none
    participants := some diners
    notes := "" }

/-- The split `dinner` after Ann has paid. -/
def dinnerAnnPaid : SplitExpense :=
  { dinner with status := "partial", participants := some dinersAnnPaid }

/-- A split record whose participants field is missing. -/
def dinnerBroken : SplitExpense :=
  { dinner with participants := none }

/-- Ann as she stands in `dinersAnnPaid`: paid in cash. -/
def annCash : Participant :=
  { ann with
    sharePercentage := some (100 / 3)
    shareAmount := some 30
    status := "paid"
    paymentMethod := some "cash"
    paidDate := some "2024-05-03T08:00:00.000Z" }

/-- Ann after her payment has been un-marked without a paymentMethod through
`updatePaymentStatus`: the method 'cash' and the paid date stay. -/
def annUnmarked : Participant := { annCash with status := "unpaid" }

/-- A remote store from which every document has gone. -/
def emptyStore : RemoteStore := { getDoc := fun _ => some false, updateDoc := fun _ => true }

/-- The diners after everybody has paid: a settled split. -/
def dinersAllPaid : List Participant :=
  [annCash,
   { bob with
      sharePercentage := some (100 / 3)
      shareAmount := some 30
      status := "paid"
      paymentMethod := some "transfer"
      paidDate := some "2024-05-04T08:00:00.000Z" },
   { cyd with
      sharePercentage := some (100 / 3)
      shareAmount := some 30
      status := "paid"
      paymentMethod := some "cash"
      paidDate := some "2024-05-05T08:00:00.000Z" }]

/-- The split `dinner` once settled. -/
def dinnerSettled : SplitExpense :=
  { dinner with status := "settled", participants := some dinersAllPaid }

/-- A stored contact with an email address. -/
def annContact : Contact :=
  { id := "c1"
    name := "Ann"
    email := "ann@example.org"
    userId := "u1"
    createdAt := "2024-04-01T10:00:00.000Z" }

/-- A stored contact without an email address. -/
def eveContact : Contact :=
  { id := "c2"
    name := "Eve"
    email := ""
    userId := "u1"
    createdAt := "2024-04-02T10:00:00.000Z" }

/-- A fourth participant, entered under another name with Bob's email. -/
def bobby : Participant := createParticipant "p_4" "Bobby" "bob@example.org" none none

/-- The ids the store assigns to new contacts, by position of the participant. -/
def contactIds : Nat → Option String := fun i => some ("c_new_" ++ toString i)

/-- The times at which the contacts are written. -/
def contactTimes : Nat → String := fun _ => "2024-05-02T09:00:01.000Z"

/-- A signed-in user without an email. -/
def guest : User := { uid := "u2", email := none, name := some "Guest" }

/-- Bob after the normalisation of `createNewSplitExpense`: shares of 0. -/
def bobListed : Participant := { bob with sharePercentage := some 0, shareAmount := some 0 }

/-- Bobby after the normalisation of `createNewSplitExpense`: shares of 0. -/
def bobbyListed : Participant :=
  { bobby with sharePercentage := some 0, shareAmount := some 0 }

/-- A stored contact whose email carries a leading blank. -/
def annSpaced : Contact :=
  { id := "c1"
    name := "Ann"
    email := " ann@example.org"
    userId := "u1"
    createdAt := "2024-04-01T10:00:00.000Z" }

/-- Ann, asked for 100 percent. -/
def annAll : Participant := { ann with sharePercentage := some 100 }

/-- Bob, asked for 100 percent. -/
def bobAll : Participant := { bob with sharePercentage := some 100 }

/-- Ann, already marked 'paid'. -/
def annPaid : Participant := { ann with status := "paid" }

/-- Ann as `updateShares` leaves her when the amounts of the others already cover
the total: no amount, 0 percent. -/
def annZero : Participant := { ann with sharePercentage := some 0 }

/-- Bob, carrying the whole of an expense of 100. -/
def bobWhole : Participant := { bob with sharePercentage := some 100, shareAmount := some 100 }

/-- Ann, with an explicit share of zero. -/
def annNil : Participant := { ann with sharePercentage := some 0, shareAmount := some 0 }

/-- Bob, pre-supplying 60 percent and no amount. -/
def bobSixty : Participant := { bob with sharePercentage := some 60 }

/-- Ann, pre-supplying 60 percent and no amount. -/
def annSixty : Participant := { ann with sharePercentage := some 60 }

/-- Ann, pre-supplying an amount of 60. -/
def annPays60 : Participant := { ann with shareAmount := some 60 }

/-- Bob, pre-supplying an amount of 60. -/
def bobPays60 : Participant := { bob with shareAmount := some 60 }

/-- Ann, pre-supplying an amount of 40. -/
def annPays40 : Participant := { ann with shareAmount := some 40 }

/-- The signed-in user. -/
def me : User := { uid := "u1", email := some "ann@example.org", name := some "Ann" }

/-- A remote store in which every document exists and every write succeeds. -/
def store : RemoteStore := { getDoc := fun _ => some true, updateDoc := fun _ => true }

/-- An identifier generator. -/
def genId : Nat → String := fun i => "p_new_" ++ toString i

/-- An expense of 100. -/
def taxi : Expense :=
  { id := none
    amount := 100
    category := "Transport"
    description := "Taxi"
    date := "2024-05-02"
    userId := "u1"
    receiptImageUrl := none
    notes := none }

/-! ## Auxiliary lemmas -/

/-- A `reduce` that adds `g p` to the accumulator computes the sum of `g`. -/
theorem foldl_add_eq_sum (g : Participant → ℚ) (a : ℚ) (l : List Participant) :
    l.foldl (fun sum p => sum + g p) a = a + (l.map g).sum := by
  induction l generalizing a with
  | nil => simp
  | cons p l ih => simp [ih, add_assoc]

/-- The paid count is computed from the list of status values alone. -/
theorem paidCount_eq_of_status (ps : List Participant) :
    paidCount ps = ((ps.map fun p => p.status).filter fun s => decide (s = "paid")).length := by
  induction ps with
  | nil => rfl
  | cons p ps ih =>
    unfold paidCount at ih ⊢
    by_cases h : p.status = "paid" <;> simp [List.filter_cons, h, ih]

/-- The paid count never exceeds the number of participants. -/
theorem paidCount_le_length (ps : List Participant) : paidCount ps ≤ ps.length :=
  List.length_filter_le _ _

/-- No participant is paid exactly when the paid count is zero. -/
theorem paidCount_eq_zero_iff (ps : List Participant) :
    paidCount ps = 0 ↔ ∀ p ∈ ps, p.status ≠ "paid" := by
  unfold paidCount
  simp [List.filter_eq_nil_iff]

/-- A value that the test `!x` rejects counts as `0` under `x || 0`. -/
theorem orZero_of_jsFalsy {x : Option ℚ} (h : jsFalsy x = true) : orZero x = 0 := by
  cases x with
  | none => rfl
  | some v => simpa [jsFalsy, orZero] using h

/-- The three `reduce` sums as list sums. -/
theorem totalShareAmount_eq_sum (ps : List Participant) :
    totalShareAmount ps = (ps.map fun p => orZero p.shareAmount).sum := by
  simp [totalShareAmount, foldl_add_eq_sum]

theorem totalAssignedAmount_eq_sum (ps : List Participant) :
    totalAssignedAmount ps = (ps.map fun p => orZero p.shareAmount).sum := by
  simp [totalAssignedAmount, foldl_add_eq_sum]

theorem totalAssignedPercentage_eq_sum (ps : List Participant) :
    totalAssignedPercentage ps = (ps.map fun p => orZero p.sharePercentage).sum := by
  simp [totalAssignedPercentage, foldl_add_eq_sum]

/-- The sum of a constant over a list. -/
theorem sum_map_const_eq (c : ℚ) (l : List Participant) :
    (l.map fun _ => c).sum = l.length * c := by
  induction l with
  | nil => simp
  | cons p l ih => simp [ih]; ring

/-- The sum of a list in which every entry whose key fails the test `!x` gets the
constant `c` and every other entry gets `m` times its key. -/
theorem sum_map_ite_jsFalsy (key : Participant → Option ℚ) (c m : ℚ) (l : List Participant) :
    (l.map fun p => if jsFalsy (key p) then c else m * orZero (key p)).sum =
      ((l.filter fun p => jsFalsy (key p)).length : ℚ) * c +
        m * (l.map fun p => orZero (key p)).sum := by
  induction l with
  | nil => simp
  | cons p l ih =>
    by_cases h : jsFalsy (key p) = true
    · simp [List.filter_cons, h, ih, orZero_of_jsFalsy h]; ring
    · simp [List.filter_cons, h, ih]; ring

/-- The list that `updateShares` produces for the method 'equal'. -/
theorem updateShares_equal (amount : ℚ) (ps : List Participant) :
    updateShares (some amount) "equal" ps = some (ps.map fun p =>
      { p with
        sharePercentage := some (100 / ps.length)
        shareAmount := some (amount / ps.length) }) := by
  simp [updateShares]

/-- The list that `updateShares` produces for the method 'percentage' when the
remaining percentage is distributed. -/
theorem updateShares_percentage_distribute (amount : ℚ) (ps : List Participant)
    (hg : 0 < unassignedPercentageCount ps ∧ totalAssignedPercentage ps < 100) :
    updateShares (some amount) "percentage" ps = some (ps.map fun p =>
      if jsFalsy p.sharePercentage then
        { p with
          sharePercentage :=
            some ((100 - totalAssignedPercentage ps) / unassignedPercentageCount ps)
          shareAmount := some ((amount *
            ((100 - totalAssignedPercentage ps) / unassignedPercentageCount ps)) / 100) }
      else
        { p with shareAmount := some ((amount * orZero p.sharePercentage) / 100) }) := by
  simp only [updateShares]
  simp [hg]

/-- The list that `updateShares` produces for the method 'percentage' when
nothing is distributed. -/
theorem updateShares_percentage_keep (amount : ℚ) (ps : List Participant)
    (hg : ¬ (0 < unassignedPercentageCount ps ∧ totalAssignedPercentage ps < 100)) :
    updateShares (some amount) "percentage" ps = some (ps.map fun p =>
      { p with shareAmount := some ((amount * orZero p.sharePercentage) / 100) }) := by
  simp only [updateShares]
  simp [hg]

/-- The list that `updateShares` produces for the method 'amount' when the
remaining amount is distributed. -/
theorem updateShares_amount_distribute (amount : ℚ) (ps : List Participant)
    (hg : 0 < unassignedAmountCount ps ∧ totalAssignedAmount ps < amount) :
    updateShares (some amount) "amount" ps = some (ps.map fun p =>
      if jsFalsy p.shareAmount then
        { p with
          shareAmount := some ((amount - totalAssignedAmount ps) / unassignedAmountCount ps)
          sharePercentage := some
            ((((amount - totalAssignedAmount ps) / unassignedAmountCount ps) / amount) * 100) }
      else
        { p with sharePercentage := some ((orZero p.shareAmount / amount) * 100) }) := by
  simp only [updateShares]
  simp [hg]

/-- The list that `updateShares` produces for the method 'amount' when nothing
is distributed. -/
theorem updateShares_amount_keep (amount : ℚ) (ps : List Participant)
    (hg : ¬ (0 < unassignedAmountCount ps ∧ totalAssignedAmount ps < amount)) :
    updateShares (some amount) "amount" ps = some (ps.map fun p =>
      { p with sharePercentage := some ((orZero p.shareAmount / amount) * 100) }) := by
  simp only [updateShares]
  simp [hg]

/-- The shares of the equal split add up to the amount. -/
theorem equal_shares_sum (amount : ℚ) (ps : List Participant) (hne : ps ≠ []) :
    ∃ out, updateShares (some amount) "equal" ps = some out ∧
      totalShareAmount out = amount := by
  refine ⟨_, updateShares_equal amount ps, ?_⟩
  have hn : (ps.length : ℚ) ≠ 0 := by
    simpa using hne
  have e : ((fun p : Participant => orZero p.shareAmount) ∘ fun p : Participant =>
      { p with
        sharePercentage := some (100 / (ps.length : ℚ))
        shareAmount := some (amount / ps.length) }) = fun _ => amount / ps.length := by
    funext p; rfl
  rw [totalShareAmount_eq_sum, List.map_map, e, sum_map_const_eq]
  field_simp

/-- The shares of the percentage split add up to the amount when the remainder is
distributed, and to the amount times the assigned percentages otherwise. -/
theorem percentage_shares_sum (amount : ℚ) (ps : List Participant) :
    ∃ out, updateShares (some amount) "percentage" ps = some out ∧
      totalShareAmount out =
        if 0 < unassignedPercentageCount ps ∧ totalAssignedPercentage ps < 100 then amount
        else amount * totalAssignedPercentage ps / 100 := by
  by_cases hg : 0 < unassignedPercentageCount ps ∧ totalAssignedPercentage ps < 100
  · refine ⟨_, updateShares_percentage_distribute amount ps hg, ?_⟩
    have hk : ((unassignedPercentageCount ps : ℕ) : ℚ) ≠ 0 := by
      have := hg.1
      exact_mod_cast this.ne'
    have e : ((fun p : Participant => orZero p.shareAmount) ∘ fun p : Participant =>
        if jsFalsy p.sharePercentage then
          { p with
            sharePercentage :=
              some ((100 - totalAssignedPercentage ps) / unassignedPercentageCount ps)
            shareAmount := some ((amount *
              ((100 - totalAssignedPercentage ps) / unassignedPercentageCount ps)) / 100) }
        else
          { p with shareAmount := some ((amount * orZero p.sharePercentage) / 100) }) =
        fun p : Participant => if jsFalsy p.sharePercentage then
          amount * ((100 - totalAssignedPercentage ps) / unassignedPercentageCount ps) / 100
        else amount / 100 * orZero p.sharePercentage := by
      funext p
      simp only [Function.comp]
      split_ifs
      · rfl
      · simp only [orZero]; ring
    rw [totalShareAmount_eq_sum, if_pos hg, List.map_map, e, sum_map_ite_jsFalsy,
      ← totalAssignedPercentage_eq_sum]
    unfold unassignedPercentageCount at hk ⊢
    field_simp
    ring
  · refine ⟨_, updateShares_percentage_keep amount ps hg, ?_⟩
    have e : ((fun p : Participant => orZero p.shareAmount) ∘ fun p : Participant =>
        { p with shareAmount := some ((amount * orZero p.sharePercentage) / 100) }) =
        fun p : Participant => if jsFalsy p.sharePercentage then 0
          else amount / 100 * orZero p.sharePercentage := by
      funext p
      simp only [Function.comp]
      split_ifs with h
      · show amount * orZero p.sharePercentage / 100 = 0
        rw [orZero_of_jsFalsy h]; ring
      · simp only [orZero]; ring
    rw [totalShareAmount_eq_sum, if_neg hg, List.map_map, e, sum_map_ite_jsFalsy,
      ← totalAssignedPercentage_eq_sum]
    ring

/-- The shares of the amount split add up to the amount when the remainder is
distributed, and to the assigned amounts otherwise. -/
theorem amount_shares_sum (amount : ℚ) (ps : List Participant) :
    ∃ out, updateShares (some amount) "amount" ps = some out ∧
      totalShareAmount out =
        if 0 < unassignedAmountCount ps ∧ totalAssignedAmount ps < amount then amount
        else totalAssignedAmount ps := by
  by_cases hg : 0 < unassignedAmountCount ps ∧ totalAssignedAmount ps < amount
  · refine ⟨_, updateShares_amount_distribute amount ps hg, ?_⟩
    have hk : ((unassignedAmountCount ps : ℕ) : ℚ) ≠ 0 := by
      have := hg.1
      exact_mod_cast this.ne'
    have e : ((fun p : Participant => orZero p.shareAmount) ∘ fun p : Participant =>
        if jsFalsy p.shareAmount then
          { p with
            shareAmount :=
              some ((amount - totalAssignedAmount ps) / unassignedAmountCount ps)
            sharePercentage := some
              ((((amount - totalAssignedAmount ps) / unassignedAmountCount ps) / amount) *
                100) }
        else
          { p with sharePercentage := some ((orZero p.shareAmount / amount) * 100) }) =
        fun p : Participant => if jsFalsy p.shareAmount then
          (amount - totalAssignedAmount ps) / unassignedAmountCount ps
        else 1 * orZero p.shareAmount := by
      funext p
      simp only [Function.comp]
      split_ifs
      · rfl
      · simp
    rw [totalShareAmount_eq_sum, if_pos hg, List.map_map, e, sum_map_ite_jsFalsy,
      ← totalAssignedAmount_eq_sum]
    unfold unassignedAmountCount at hk ⊢
    field_simp
  · refine ⟨_, updateShares_amount_keep amount ps hg, ?_⟩
    have e : ((fun p : Participant => orZero p.shareAmount) ∘ fun p : Participant =>
        { p with sharePercentage := some ((orZero p.shareAmount / amount) * 100) }) =
        fun p : Participant => orZero p.shareAmount := by
      funext p; rfl
    rw [totalShareAmount_eq_sum, if_neg hg, List.map_map, e, totalAssignedAmount_eq_sum]

/-- The per-participant step of `createSplitExpense` keeps the status. -/
theorem calculateParticipant_status (amount : ℚ) (n : Nat) (p : Participant) :
    (calculateParticipant amount n p).status = p.status := by
  unfold calculateParticipant
  split_ifs <;> rfl

/-- The aggregate status is a function of the participants field. -/
theorem calculateSplitStatus_congr (s t : SplitExpense) (h : s.participants = t.participants) :
    calculateSplitStatus (some s) = calculateSplitStatus (some t) := by
  simp [calculateSplitStatus, h]

/-- What `updatePaymentStatus` has found and computed when it issues a write. -/
theorem updatePaymentStatus_write {currentUser : Option User}
    {splitExpenses : List SplitExpense} {remote : RemoteStore} {now : String}
    {splitExpenseId participantId : Option JsId} {status : String}
    {paymentMethod : Option String} {w : PaymentWrite}
    (hw : (updatePaymentStatus currentUser splitExpenses remote now splitExpenseId
      participantId status paymentMethod).write = some w) :
    ∃ (splitExpense : SplitExpense) (participants : List Participant) (participantIndex : Nat),
      splitExpenses.find? (fun expense =>
        decide (ensureStringId expense.id = ensureStringId splitExpenseId)) = some splitExpense ∧
      splitExpense.participants = some participants ∧
      participants.findIdx? (fun p =>
        decide (ensureStringId p.id = ensureStringId participantId)) = some participantIndex ∧
      remote.getDoc ((ensureStringId splitExpenseId).getD "") = some true ∧
      w.participants =
        participants.modify (updatedParticipant now status paymentMethod) participantIndex ∧
      w.status = calculateSplitStatus
        (some { splitExpense with participants := some w.participants }) := by
  unfold updatePaymentStatus at hw
  split at hw
  · simp at hw
  · dsimp only at hw
    split_ifs at hw
    split at hw
    · simp at hw
    · rename_i splitExpense hfind
      split at hw
      · simp at hw
      · rename_i participants hps
        split at hw
        · simp at hw
        · rename_i participantIndex hidx
          split at hw
          · simp at hw
          · simp at hw
          · rename_i hdoc
            simp only [Option.some.injEq] at hw
            subst hw
            exact ⟨splitExpense, participants, participantIndex, hfind, hps, hidx, hdoc,
              rfl, rfl⟩

/-- The test `!x` holds exactly for an unset value and for `0`. -/
theorem jsFalsy_iff (x : Option ℚ) : jsFalsy x = true ↔ x = none ∨ x = some 0 := by
  cases x with
  | none => simp [jsFalsy]
  | some v => simp [jsFalsy]

/-- The test `!x` fails on a non-zero number. -/
theorem jsFalsy_some_ne {v : ℚ} (h : v ≠ 0) : jsFalsy (some v) = false := by
  simp [jsFalsy, h]

/-- An amount is recovered from the percentage computed from it. -/
theorem percentage_of_amount (amount x : ℚ) (ha : amount ≠ 0) :
    x = amount * (x / amount * 100) / 100 := by
  field_simp

/-- What `findIndex` returns: the index holds a matching element and no earlier
index does. -/
theorem findIdx?_eq_some_spec {α : Type} (P : α → Bool) :
    ∀ (l : List α) (i : Nat), l.findIdx? P = some i →
      ∃ p, l[i]? = some p ∧ P p = true ∧
        ∀ (j : Nat) (q : α), j < i → l[j]? = some q → P q = false := by
  intro l
  induction l with
  | nil => intro i h; simp at h
  | cons x xs ih =>
    intro i h
    rw [List.findIdx?_cons] at h
    by_cases hx : P x = true
    · rw [if_pos hx] at h
      simp only [Option.some.injEq] at h
      subst h
      exact ⟨x, by simp, hx, fun j q hj _ => absurd hj (Nat.not_lt_zero j)⟩
    · rw [if_neg hx, List.findIdx?_succ] at h
      obtain ⟨k, hk, rfl⟩ := Option.map_eq_some'.1 h
      obtain ⟨p, hp, hP, hfirst⟩ := ih k hk
      refine ⟨p, by simpa using hp, hP, ?_⟩
      intro j q hj hq
      cases j with
      | zero =>
        simp only [List.getElem?_cons_zero, Option.some.injEq] at hq
        subst hq
        simpa using hx
      | succ j =>
        simp only [List.getElem?_cons_succ] at hq
        exact hfirst j q (by omega) hq

/-- The participant update of `updatePaymentStatus` is `updateParticipantStatus`
with the previous paymentMethod standing in for a missing or empty one. -/
theorem updatedParticipant_eq (now : String) (status : String) (paymentMethod : Option String)
    (old : Participant) :
    updatedParticipant now status paymentMethod old =
      updateParticipantStatus now old status
        (if strFalsy paymentMethod then old.paymentMethod else paymentMethod) := rfl

/-- The write of `updatePaymentStatus` carries the list `updatedParticipants`. -/
theorem updatePaymentStatus_write_participants {currentUser : Option User}
    {splitExpenses : List SplitExpense} {remote : RemoteStore} {now : String}
    {splitExpenseId participantId : Option JsId} {status : String}
    {paymentMethod : Option String} {w : PaymentWrite}
    (hw : (updatePaymentStatus currentUser splitExpenses remote now splitExpenseId
      participantId status paymentMethod).write = some w) :
    ∃ (splitExpense : SplitExpense) (participants : List Participant),
      splitExpenses.find? (fun expense =>
        decide (ensureStringId expense.id = ensureStringId splitExpenseId)) = some splitExpense ∧
      splitExpense.participants = some participants ∧
      updatedParticipants now status paymentMethod (ensureStringId participantId) participants =
        some w.participants := by
  obtain ⟨s, ps, i, h1, h2, h3, -, h5, -⟩ := updatePaymentStatus_write hw
  exact ⟨s, ps, h1, h2, by simp only [updatedParticipants, h3, h5]⟩

/-- All participants are paid exactly when the paid count is the length. -/
theorem paidCount_eq_length_iff (ps : List Participant) :
    paidCount ps = ps.length ↔ ∀ p ∈ ps, p.status = "paid" := by
  unfold paidCount
  rw [List.filter_length_eq_length]
  simp

/-- The participant update keeps the id. -/
theorem updatedParticipant_id (now : String) (status : String) (paymentMethod : Option String)
    (p : Participant) : (updatedParticipant now status paymentMethod p).id = p.id := rfl

/-- The participant update sets the status. -/
theorem updatedParticipant_status (now : String) (status : String)
    (paymentMethod : Option String) (p : Participant) :
    (updatedParticipant now status paymentMethod p).status = status := rfl

/-- When the ids are pairwise distinct as strings, updating the first participant
with the given id updates every participant with the given id. -/
theorem findIdx?_modify_eq_map (f : Participant → Participant) (d : Option String) :
    ∀ ps : List Participant, (ps.map fun p => ensureStringId p.id).Nodup →
      d ∈ (ps.map fun p => ensureStringId p.id) →
      ∃ i, ps.findIdx? (fun p => decide (ensureStringId p.id = d)) = some i ∧
        ps.modify f i = ps.map fun p => if ensureStringId p.id = d then f p else p := by
  intro ps
  induction ps with
  | nil => intro _ h; simp at h
  | cons x xs ih =>
    intro hnd hmem
    rw [List.map_cons, List.nodup_cons] at hnd
    by_cases hx : ensureStringId x.id = d
    · refine ⟨0, by simp [hx], ?_⟩
      have hrest : (xs.map fun p => if ensureStringId p.id = d then f p else p) = xs := by
        conv_rhs => rw [← List.map_id xs]
        apply List.map_congr_left
        intro p hp
        have hne : ensureStringId p.id ≠ d := by
          intro h
          apply hnd.1
          rw [hx, ← h]
          exact List.mem_map.2 ⟨p, hp, rfl⟩
        simp [hne]
      simp [hx, hrest]
    · have hmem' : d ∈ (xs.map fun p => ensureStringId p.id) := by
        rw [List.map_cons, List.mem_cons] at hmem
        rcases hmem with h | h
        · exact absurd h.symm hx
        · exact h
      obtain ⟨i, hi, hmod⟩ := ih hnd.2 hmem'
      refine ⟨i + 1, ?_, ?_⟩
      · rw [List.findIdx?_cons, List.findIdx?_succ, hi]
        simp [hx]
      · simp [hx, hmod]

/-- The list `updatedParticipants` when the ids are pairwise distinct as strings. -/
theorem updatedParticipants_eq_map (now : String) (status : String)
    (paymentMethod : Option String) (d : Option String) (ps : List Participant)
    (hnd : (ps.map fun p => ensureStringId p.id).Nodup)
    (hmem : d ∈ (ps.map fun p => ensureStringId p.id)) :
    updatedParticipants now status paymentMethod d ps =
      some (ps.map fun p =>
        if ensureStringId p.id = d then updatedParticipant now status paymentMethod p else p) := by
  obtain ⟨i, hi, hmod⟩ :=
    findIdx?_modify_eq_map (updatedParticipant now status paymentMethod) d ps hnd hmem
  simp only [updatedParticipants, hi, hmod]

/-- Marking participants 'paid' one after the other, by id: the ids stay, and a
participant ends up 'paid' when its id is among those marked and keeps its status
otherwise. -/
theorem mark_paid_steps (steps : List (String × Option String × Option JsId)) :
    ∀ ps : List Participant, (ps.map fun p => ensureStringId p.id).Nodup →
      (∀ st ∈ steps, ensureStringId st.2.2 ∈ (ps.map fun p => ensureStringId p.id)) →
      ∃ out, steps.foldlM (fun acc st =>
          updatedParticipants st.1 "paid" st.2.1 (ensureStringId st.2.2) acc) ps = some out ∧
        (out.map fun q => (ensureStringId q.id, q.status)) =
          ps.map fun p => (ensureStringId p.id,
            if ensureStringId p.id ∈ steps.map (fun st => ensureStringId st.2.2)
            then "paid" else p.status) := by
  induction steps with
  | nil => intro ps _ _; exact ⟨ps, rfl, by simp⟩
  | cons st steps ih =>
    intro ps hnd hsteps
    have h1 := updatedParticipants_eq_map st.1 "paid" st.2.1 (ensureStringId st.2.2) ps hnd
      (hsteps st (List.mem_cons_self _ _))
    have hids : ((ps.map fun p => if ensureStringId p.id = ensureStringId st.2.2
          then updatedParticipant st.1 "paid" st.2.1 p else p).map
          fun p => ensureStringId p.id) = ps.map fun p => ensureStringId p.id := by
      rw [List.map_map]
      apply List.map_congr_left
      intro p _
      simp only [Function.comp]
      split_ifs <;> rfl
    obtain ⟨out, h2, h3⟩ := ih _ (by rw [hids]; exact hnd) (by
      intro st' hst'
      rw [hids]
      exact hsteps st' (List.mem_cons_of_mem _ hst'))
    refine ⟨out, ?_, ?_⟩
    · rw [List.foldlM_cons, h1]
      exact h2
    · rw [h3, List.map_map]
      apply List.map_congr_left
      intro p _
      simp only [Function.comp, List.map_cons, List.mem_cons]
      by_cases hp : ensureStringId p.id = ensureStringId st.2.2
      · simp [hp, updatedParticipant_id, updatedParticipant_status]
      · rw [if_neg hp]
        simp only [hp, false_or]

/-- The status computed for a participant list that holds a paid and a
participant that is not paid. -/
theorem calculateSplitStatus_partial (s : SplitExpense) (out : List Participant)
    (hpaid : ∃ q ∈ out, q.status = "paid") (hopen : ∃ q ∈ out, q.status ≠ "paid") :
    calculateSplitStatus (some { s with participants := some out }) = "partial" := by
  have h0 : paidCount out ≠ 0 := by
    rw [Ne, paidCount_eq_zero_iff]
    intro h
    obtain ⟨q, hq, hs⟩ := hpaid
    exact h q hq hs
  have h1 : paidCount out ≠ out.length := by
    rw [Ne, paidCount_eq_length_iff]
    intro h
    obtain ⟨q, hq, hs⟩ := hopen
    exact hs (h q hq)
  simp only [calculateSplitStatus, if_neg h0, if_neg h1]

/-- The status computed for a non-empty participant list in which everybody has
paid. -/
theorem calculateSplitStatus_settled (s : SplitExpense) (out : List Participant)
    (hne : out ≠ []) (hall : ∀ q ∈ out, q.status = "paid") :
    calculateSplitStatus (some { s with participants := some out }) = "settled" := by
  have h1 : paidCount out = out.length := (paidCount_eq_length_iff out).2 hall
  have h0 : paidCount out ≠ 0 := by
    rw [h1]
    simpa using hne
  simp only [calculateSplitStatus, if_neg h0, if_pos h1]

/-- Marking participants of an all-unpaid split 'paid' one after the other: the
status is 'partial' while somebody is not marked and 'settled' once everybody is. -/
theorem mark_paid_status (s : SplitExpense) (ps : List Participant)
    (hne : ps ≠ [])
    (hnd : (ps.map fun p => ensureStringId p.id).Nodup)
    (hunpaid : ∀ p ∈ ps, p.status = "unpaid")
    (steps : List (String × Option String × Option JsId)) (hsteps : steps ≠ [])
    (hmem : ∀ st ∈ steps, ensureStringId st.2.2 ∈ (ps.map fun p => ensureStringId p.id)) :
    ∃ out, steps.foldlM (fun acc st =>
        updatedParticipants st.1 "paid" st.2.1 (ensureStringId st.2.2) acc) ps = some out ∧
      ((∃ p ∈ ps, ensureStringId p.id ∉ steps.map (fun st => ensureStringId st.2.2)) →
        calculateSplitStatus (some { s with participants := some out }) = "partial") ∧
      ((∀ p ∈ ps, ensureStringId p.id ∈ steps.map (fun st => ensureStringId st.2.2)) →
        calculateSplitStatus (some { s with participants := some out }) = "settled") := by
  obtain ⟨out, h1, h2⟩ := mark_paid_steps steps ps hnd hmem
  have hfwd : ∀ q ∈ out, ∃ p ∈ ps, q.status =
      if ensureStringId p.id ∈ steps.map (fun st => ensureStringId st.2.2)
      then "paid" else p.status := by
    intro q hq
    have hq' : (ensureStringId q.id, q.status) ∈
        out.map fun q => (ensureStringId q.id, q.status) := List.mem_map.2 ⟨q, hq, rfl⟩
    rw [h2] at hq'
    obtain ⟨p, hp, he⟩ := List.mem_map.1 hq'
    exact ⟨p, hp, (congrArg Prod.snd he).symm⟩
  have hbwd : ∀ p ∈ ps, ∃ q ∈ out, q.status =
      if ensureStringId p.id ∈ steps.map (fun st => ensureStringId st.2.2)
      then "paid" else p.status := by
    intro p hp
    have hp' : (ensureStringId p.id,
        if ensureStringId p.id ∈ steps.map (fun st => ensureStringId st.2.2)
        then "paid" else p.status) ∈
        ps.map fun p => (ensureStringId p.id,
          if ensureStringId p.id ∈ steps.map (fun st => ensureStringId st.2.2)
          then "paid" else p.status) := List.mem_map.2 ⟨p, hp, rfl⟩
    rw [← h2] at hp'
    obtain ⟨q, hq, he⟩ := List.mem_map.1 hp'
    exact ⟨q, hq, congrArg Prod.snd he⟩
  refine ⟨out, h1, ?_, ?_⟩
  · rintro ⟨p, hp, hnot⟩
    apply calculateSplitStatus_partial
    · obtain ⟨st, rest, rfl⟩ := List.exists_cons_of_ne_nil hsteps
      obtain ⟨p0, hp0, hid⟩ := List.mem_map.1 (hmem st (List.mem_cons_self _ _))
      obtain ⟨q, hq, hst⟩ := hbwd p0 hp0
      refine ⟨q, hq, ?_⟩
      rw [hst, if_pos]
      rw [hid]
      exact List.mem_map.2 ⟨st, List.mem_cons_self _ _, rfl⟩
    · obtain ⟨q, hq, hst⟩ := hbwd p hp
      refine ⟨q, hq, ?_⟩
      rw [hst, if_neg hnot, hunpaid p hp]
      decide
  · intro hall
    apply calculateSplitStatus_settled
    · intro hnil
      have hlen := congrArg List.length h2
      simp only [List.length_map, hnil, List.length_nil] at hlen
      exact hne (List.length_eq_zero.1 hlen.symm)
    · intro q hq
      obtain ⟨p, hp, hst⟩ := hfwd q hq
      rw [hst, if_pos (hall p hp)]

/-- The sum over the paid and the sum over the other participants add up to the
sum over all. -/
theorem sum_filter_paid_add (g : Participant → ℚ) (ps : List Participant) :
    ((ps.filter fun p => decide (p.status = "paid")).map g).sum +
      ((ps.filter fun p => decide (p.status ≠ "paid")).map g).sum = (ps.map g).sum := by
  induction ps with
  | nil => simp
  | cons p ps ih =>
    by_cases h : p.status = "paid"
    · simp only [List.filter_cons, h, decide_True, if_true, ne_eq, not_true_eq_false,
        decide_False, Bool.false_eq_true, if_false, List.map_cons, List.sum_cons]
      simp only [ne_eq] at ih
      rw [add_assoc, ih]
    · simp only [List.filter_cons, h, decide_False, Bool.false_eq_true, if_false, ne_eq,
        not_false_eq_true, decide_True, if_true, List.map_cons, List.sum_cons]
      simp only [ne_eq] at ih
      rw [← ih]
      ring

/-- The percentages of the percentage split add up to 100 when the remainder is
distributed. -/
theorem percentage_percentages_sum (amount : ℚ) (ps : List Participant)
    (hg : 0 < unassignedPercentageCount ps ∧ totalAssignedPercentage ps < 100) :
    ∃ out, updateShares (some amount) "percentage" ps = some out ∧
      totalAssignedPercentage out = 100 := by
  refine ⟨_, updateShares_percentage_distribute amount ps hg, ?_⟩
  have hk : ((unassignedPercentageCount ps : ℕ) : ℚ) ≠ 0 := by
    have := hg.1
    exact_mod_cast this.ne'
  have e : ((fun p : Participant => orZero p.sharePercentage) ∘ fun p : Participant =>
      if jsFalsy p.sharePercentage then
        { p with
          sharePercentage :=
            some ((100 - totalAssignedPercentage ps) / unassignedPercentageCount ps)
          shareAmount := some ((amount *
            ((100 - totalAssignedPercentage ps) / unassignedPercentageCount ps)) / 100) }
      else
        { p with shareAmount := some ((amount * orZero p.sharePercentage) / 100) }) =
      fun p : Participant => if jsFalsy p.sharePercentage then
        (100 - totalAssignedPercentage ps) / unassignedPercentageCount ps
      else 1 * orZero p.sharePercentage := by
    funext p
    simp only [Function.comp]
    split_ifs
    · rfl
    · simp
  rw [totalAssignedPercentage_eq_sum, List.map_map, e, sum_map_ite_jsFalsy,
    ← totalAssignedPercentage_eq_sum]
  unfold unassignedPercentageCount at hk ⊢
  field_simp

/-- The percentages of the amount split add up to 100 when the remainder is
distributed. -/
theorem amount_percentages_sum (amount : ℚ) (ha : amount ≠ 0) (ps : List Participant)
    (hg : 0 < unassignedAmountCount ps ∧ totalAssignedAmount ps < amount) :
    ∃ out, updateShares (some amount) "amount" ps = some out ∧
      totalAssignedPercentage out = 100 := by
  refine ⟨_, updateShares_amount_distribute amount ps hg, ?_⟩
  have hk : ((unassignedAmountCount ps : ℕ) : ℚ) ≠ 0 := by
    have := hg.1
    exact_mod_cast this.ne'
  have e : ((fun p : Participant => orZero p.sharePercentage) ∘ fun p : Participant =>
      if jsFalsy p.shareAmount then
        { p with
          shareAmount :=
            some ((amount - totalAssignedAmount ps) / unassignedAmountCount ps)
          sharePercentage := some
            ((((amount - totalAssignedAmount ps) / unassignedAmountCount ps) / amount) *
              100) }
      else
        { p with sharePercentage := some ((orZero p.shareAmount / amount) * 100) }) =
      fun p : Participant => if jsFalsy p.shareAmount then
        ((amount - totalAssignedAmount ps) / unassignedAmountCount ps) / amount * 100
      else 100 / amount * orZero p.shareAmount := by
    funext p
    simp only [Function.comp]
    split_ifs
    · rfl
    · simp only [orZero]
      ring
  rw [totalAssignedPercentage_eq_sum, List.map_map, e, sum_map_ite_jsFalsy,
    ← totalAssignedAmount_eq_sum]
  unfold unassignedAmountCount at hk ⊢
  field_simp
  ring

/-- Some participant fails the test `!x` exactly when the count of those is
positive. -/
theorem filter_jsFalsy_pos (key : Participant → Option ℚ) (ps : List Participant)
    (h : ∃ p ∈ ps, key p = none ∨ key p = some 0) :
    0 < (ps.filter fun p => jsFalsy (key p)).length := by
  obtain ⟨p, hp, hk⟩ := h
  exact List.length_pos_of_mem (List.mem_filter.2 ⟨hp, (jsFalsy_iff _).2 hk⟩)

/-- Lower-casing gives the empty string for the empty string only. -/
theorem toLowerCase_eq_empty {s : String} (h : toLowerCase s = "") : s = "" := by
  unfold toLowerCase at h
  have hd : s.data.map Char.toLower = [] := by
    simpa using congrArg String.data h
  have hs : s.data = [] := by
    cases hdata : s.data with
    | nil => rfl
    | cons a l => rw [hdata] at hd; simp at hd
  cases s with
  | mk data =>
    simp only at hs
    rw [hs]

/-- The local duplicate check of `addContact`: a contact with a non-empty email
that, lower-cased, is the new email trimmed and lower-cased stops the addition. -/
theorem addContact_found (currentUser : Option User) (contacts stored : List Contact)
    (getDocsFails : Bool) (addDoc : Option String) (now : String) (name email : String)
    (c : Contact) (hc : c ∈ contacts) (hce : c.email ≠ "") (hblank : trim email ≠ "")
    (heq : toLowerCase c.email = toLowerCase (trim email)) :
    addContact currentUser contacts stored getDocsFails addDoc now name email =
      { ok := false, contacts := contacts, stored := stored } := by
  have hemail : email ≠ "" := by
    intro h
    apply hblank
    rw [h]
    decide
  have hfind : contacts.find? (fun c =>
      decide (c.email ≠ "") && decide (toLowerCase c.email = toLowerCase (trim email))) ≠
      none := by
    rw [Ne, List.find?_eq_none]
    intro h
    have := h c hc
    simp [hce, heq] at this
  obtain ⟨c', hc'⟩ := Option.ne_none_iff_exists'.1 hfind
  unfold addContact
  split
  · rfl
  · by_cases h1 : name = "" ∨ trim name = ""
    · rw [if_pos h1]
    · rw [if_neg h1, if_pos ⟨hemail, hblank⟩]
      dsimp only
      rw [hc']

/-! ## Settlement status -/

/-- C1: for a split whose participants field is a list, `calculateSplitStatus`
returns 'pending' when no participant has status 'paid', 'settled' when the number
of paid participants equals the length of the list and is not 0, and 'partial'
otherwise; two splits whose participants carry the same status values get the
same result. -/
theorem calculateSplitStatus_spec (s : SplitExpense) (ps : List Participant)
    (hs : s.participants = some ps) :
    ((∀ p ∈ ps, p.status ≠ "paid") → calculateSplitStatus (some s) = "pending") ∧
    (paidCount ps = ps.length → paidCount ps ≠ 0 →
      calculateSplitStatus (some s) = "settled") ∧
    (paidCount ps ≠ 0 → paidCount ps ≠ ps.length →
      calculateSplitStatus (some s) = "partial") ∧
    (∀ (t : SplitExpense) (qs : List Participant), t.participants = some qs →
      (qs.map fun p => p.status) = (ps.map fun p => p.status) →
      calculateSplitStatus (some t) = calculateSplitStatus (some s)) := by
  refine ⟨?_, ?_, ?_, ?_⟩
  · intro h
    have h0 : paidCount ps = 0 := (paidCount_eq_zero_iff ps).2 h
    simp [calculateSplitStatus, hs, h0]
  · intro h1 h2
    simp only [calculateSplitStatus, hs, if_neg h2, if_pos h1]
  · intro h1 h2
    simp [calculateSplitStatus, hs, h1, h2]
  · intro t qs ht hq
    have hc : paidCount qs = paidCount ps := by
      rw [paidCount_eq_of_status, paidCount_eq_of_status, hq]
    have hl : qs.length = ps.length := by
      simpa using congrArg List.length hq
    simp [calculateSplitStatus, hs, ht, hc, hl]

/-- C1, at a concrete input: a split with three participants, all 'unpaid', is
'pending'. -/
theorem calculateSplitStatus_spec_witness :
    dinner.participants = some diners ∧
    calculateSplitStatus (some dinner) = "pending" :=
  ⟨rfl, (calculateSplitStatus_spec dinner diners rfl).1 (by
    simp [diners, ann, bob, cyd, createParticipant])⟩

/-! ## Share sums of `updateShares` -/

/-- C2, as stated, fails: with amount 100, method 'percentage' and two participants
who each pre-supply 100 percent, `updateShares` gives both a share of 100, so the
shares add up to 200 and miss the amount by more than 0.01. -/
theorem updateShares_share_sum_counterexample :
    updateShares (some 100) "percentage" [annAll, bobAll] =
      some [{ annAll with shareAmount := some 100 }, { bobAll with shareAmount := some 100 }] ∧
    totalShareAmount
      [{ annAll with shareAmount := some 100 }, { bobAll with shareAmount := some 100 }] = 200 ∧
    ¬ |totalShareAmount
      [{ annAll with shareAmount := some 100 }, { bobAll with shareAmount := some 100 }] - 100|
        ≤ 1 / 100 := by
  refine ⟨?_, ?_, ?_⟩
  · simp [updateShares, totalAssignedPercentage, unassignedPercentageCount, annAll, bobAll,
      ann, bob, createParticipant, jsFalsy, orZero]
  · simp [totalShareAmount, orZero]
    norm_num
  · simp [totalShareAmount, orZero]
    norm_num

/-- C2, amended: for every amount > 0 and every non-empty participant list, the
shares computed by `updateShares` satisfy |sum of shareAmount - amount| ≤ 0.01 with
method 'equal'; with method 'percentage' exactly when some participant lacks a
percentage and the explicit percentages total less than 100, or the amount times
the explicit percentages over 100 is within 0.01 of the amount; with method
'amount' exactly when some participant lacks an amount and the explicit amounts
total less than the amount, or the explicit amounts are within 0.01 of the amount. -/
theorem updateShares_share_sum (amount : ℚ) (hpos : 0 < amount) (ps : List Participant)
    (hne : ps ≠ []) :
    (∃ out, updateShares (some amount) "equal" ps = some out ∧
      |totalShareAmount out - amount| ≤ 1 / 100) ∧
    (∃ out, updateShares (some amount) "percentage" ps = some out ∧
      (|totalShareAmount out - amount| ≤ 1 / 100 ↔
        (0 < unassignedPercentageCount ps ∧ totalAssignedPercentage ps < 100) ∨
        |amount * totalAssignedPercentage ps / 100 - amount| ≤ 1 / 100)) ∧
    (∃ out, updateShares (some amount) "amount" ps = some out ∧
      (|totalShareAmount out - amount| ≤ 1 / 100 ↔
        (0 < unassignedAmountCount ps ∧ totalAssignedAmount ps < amount) ∨
        |totalAssignedAmount ps - amount| ≤ 1 / 100)) := by
  refine ⟨?_, ?_, ?_⟩
  · obtain ⟨out, h1, h2⟩ := equal_shares_sum amount ps hne
    exact ⟨out, h1, by rw [h2]; norm_num⟩
  · obtain ⟨out, h1, h2⟩ := percentage_shares_sum amount ps
    refine ⟨out, h1, ?_⟩
    rw [h2]
    by_cases hg : 0 < unassignedPercentageCount ps ∧ totalAssignedPercentage ps < 100
    · rw [if_pos hg]
      simp only [hg, true_or, iff_true]
      norm_num
    · rw [if_neg hg]
      simp only [hg, false_or]
  · obtain ⟨out, h1, h2⟩ := amount_shares_sum amount ps
    refine ⟨out, h1, ?_⟩
    rw [h2]
    by_cases hg : 0 < unassignedAmountCount ps ∧ totalAssignedAmount ps < amount
    · rw [if_pos hg]
      simp only [hg, true_or, iff_true]
      norm_num
    · rw [if_neg hg]
      simp only [hg, false_or]

/-- C2, amended, at a concrete input: 100 split equally between three participants. -/
theorem updateShares_share_sum_witness :
    (0 : ℚ) < 100 ∧ [ann, bob, cyd] ≠ [] ∧
    ∃ out, updateShares (some 100) "equal" [ann, bob, cyd] = some out ∧
      |totalShareAmount out - 100| ≤ 1 / 100 :=
  ⟨by norm_num, by simp,
    (updateShares_share_sum 100 (by norm_num) [ann, bob, cyd] (by simp)).1⟩

/-! ## Status of the records that are built and written -/

/-- C3, as stated, fails: `createSplitExpense` applied to a participant list in
which Ann is already 'paid' returns a record with status 'pending', while
`calculateSplitStatus` of that record is 'partial'. -/
theorem createSplitExpense_status_counterexample :
    (createSplitExpense 1 "2024-05-02T09:00:00.000Z" taxi [annPaid, bob]).status = "pending" ∧
    calculateSplitStatus
      (some (createSplitExpense 1 "2024-05-02T09:00:00.000Z" taxi [annPaid, bob])) =
        "partial" := by
  refine ⟨rfl, ?_⟩
  simp [calculateSplitStatus, createSplitExpense, paidCount, calculateParticipant_status,
    annPaid, ann, bob, createParticipant]

/-- C3, amended: every record returned by `createSplitExpense` has status
'pending', which is `calculateSplitStatus` of the record whenever no input
participant has status 'paid'; and every (participants, status) pair written by
`updatePaymentStatus` has status equal to `calculateSplitStatus` of any split
carrying the written participants. -/
theorem split_status_derived :
    (∀ (splitId : Nat) (now : String) (expense : Expense) (ps : List Participant),
      (createSplitExpense splitId now expense ps).status = "pending" ∧
      ((∀ p ∈ ps, p.status ≠ "paid") →
        (createSplitExpense splitId now expense ps).status =
          calculateSplitStatus (some (createSplitExpense splitId now expense ps)))) ∧
    (∀ (currentUser : Option User) (splitExpenses : List SplitExpense) (remote : RemoteStore)
      (now : String) (splitExpenseId participantId : Option JsId) (status : String)
      (paymentMethod : Option String) (w : PaymentWrite),
      (updatePaymentStatus currentUser splitExpenses remote now splitExpenseId participantId
        status paymentMethod).write = some w →
      ∀ t : SplitExpense, t.participants = some w.participants →
        w.status = calculateSplitStatus (some t)) := by
  refine ⟨?_, ?_⟩
  · intro splitId now expense ps
    refine ⟨rfl, ?_⟩
    intro h
    have h0 : paidCount (ps.map (calculateParticipant expense.amount ps.length)) = 0 := by
      rw [paidCount_eq_zero_iff]
      intro q hq
      obtain ⟨p, hp, rfl⟩ := List.mem_map.1 hq
      rw [calculateParticipant_status]
      exact h p hp
    simp [calculateSplitStatus, createSplitExpense, h0]
  · intro currentUser splitExpenses remote now sid pid status paymentMethod w hw t ht
    obtain ⟨s, ps, i, -, -, -, -, -, h2⟩ := updatePaymentStatus_write hw
    rw [h2]
    exact calculateSplitStatus_congr _ _ (by simpa using ht.symm)

/-- C3, amended, at a concrete input: a record created for three unpaid
participants is 'pending', as `calculateSplitStatus` says; and marking Ann 'paid'
in the cached split `dinner` writes the status 'partial', which is
`calculateSplitStatus` of the written participants. -/
theorem split_status_derived_witness :
    (∀ p ∈ [ann, bob, cyd], p.status ≠ "paid") ∧
    (createSplitExpense 1 "2024-05-02T09:00:00.000Z" taxi [ann, bob, cyd]).status =
      calculateSplitStatus
        (some (createSplitExpense 1 "2024-05-02T09:00:00.000Z" taxi [ann, bob, cyd])) ∧
    "partial" = calculateSplitStatus (some { dinner with participants := some dinersAnnPaid }) :=
  ⟨by simp [ann, bob, cyd, createParticipant],
    (split_status_derived.1 1 "2024-05-02T09:00:00.000Z" taxi [ann, bob, cyd]).2
      (by simp [ann, bob, cyd, createParticipant]),
    split_status_derived.2 (some me) [dinner] store "2024-05-03T08:00:00.000Z"
      (some (.str "s1")) (some (.str "p_1")) "paid" (some "cash")
      { docId := "s1"
        participants := dinersAnnPaid
        status := "partial"
        updatedAt := "2024-05-03T08:00:00.000Z" } rfl _ rfl⟩

/-! ## Shares of the record that is created -/

/-- C4, at the failing input: with amount 100 and method 'amount', adding Bob with
an amount of 100 next to Ann makes `updateShares` leave Ann without an amount and
with 0 percent; this list passes the share check of `handleSubmit`, and the record
built by `createNewSplitExpense` then gives Ann an equal share of 50, so that its
shares add up to 150 against a totalAmount of 100. -/
theorem newSplitExpense_share_sum_fails :
    updateShares (some 100) "amount" [ann, { bob with shareAmount := some 100 }] =
      some [annZero, bobWhole] ∧
    sharesMatch 100 [annZero, bobWhole] = true ∧
    ∃ ps, (newSplitExpense 1 "2024-05-02T09:00:00.000Z" genId me taxi "e1"
        [annZero, bobWhole]).participants = some ps ∧
      (newSplitExpense 1 "2024-05-02T09:00:00.000Z" genId me taxi "e1"
        [annZero, bobWhole]).totalAmount = 100 ∧
      totalShareAmount ps = 150 ∧
      ¬ |totalShareAmount ps - 100| ≤ 1 / 100 := by
  refine ⟨?_, ?_, _, rfl, rfl, ?_, ?_⟩
  · simp [updateShares, totalAssignedAmount, unassignedAmountCount, annZero, bobWhole,
      ann, bob, createParticipant, jsFalsy, orZero]
  · simp [sharesMatch, totalShareAmount, annZero, bobWhole, ann, bob, createParticipant, orZero]
  · simp [totalShareAmount, validatedParticipants, calculateParticipant, jsFalsy, orZero,
      annZero, bobWhole, ann, bob, createParticipant, taxi]
    norm_num
  · simp [totalShareAmount, validatedParticipants, calculateParticipant, jsFalsy, orZero,
      annZero, bobWhole, ann, bob, createParticipant, taxi]
    norm_num

/-- C5, as stated, fails: Ann carries the numeric shares sharePercentage = 0 (in
[0,100]) and shareAmount = 0 (non-negative), and `createSplitExpense` on an expense
of 100 returns her with sharePercentage 50 and shareAmount 50. -/
theorem createSplitExpense_keeps_shares_counterexample :
    (createSplitExpense 1 "2024-05-02T09:00:00.000Z" taxi [annNil, bobWhole]).participants =
      some [{ annNil with sharePercentage := some 50, shareAmount := some 50 }, bobWhole] ∧
    annNil.sharePercentage = some 0 ∧ annNil.shareAmount = some 0 := by
  refine ⟨?_, rfl, rfl⟩
  simp [createSplitExpense, calculateParticipant, jsFalsy, orZero, annNil, bobWhole, ann, bob,
    createParticipant, taxi]
  norm_num

/-- C5, amended: for every expense and every participant list in which each
participant already carries a non-zero numeric sharePercentage and a non-zero
numeric shareAmount, `createSplitExpense` returns the input participants
unchanged, so with the same sharePercentage and shareAmount. -/
theorem createSplitExpense_keeps_shares (splitId : Nat) (now : String) (expense : Expense)
    (ps : List Participant)
    (h : ∀ p ∈ ps, ∃ x y : ℚ, p.sharePercentage = some x ∧ x ≠ 0 ∧
      p.shareAmount = some y ∧ y ≠ 0) :
    (createSplitExpense splitId now expense ps).participants = some ps := by
  have hmap : ps.map (calculateParticipant expense.amount ps.length) = ps := by
    conv_rhs => rw [← List.map_id ps]
    apply List.map_congr_left
    intro p hp
    obtain ⟨x, y, hx, hx0, hy, hy0⟩ := h p hp
    simp [calculateParticipant, hx, hy, jsFalsy_some_ne hx0, jsFalsy_some_ne hy0]
  simp [createSplitExpense, hmap]

/-- C5, amended, at a concrete input: Bob with 100 percent and an amount of 100 is
returned as he was. -/
theorem createSplitExpense_keeps_shares_witness :
    (createSplitExpense 1 "2024-05-02T09:00:00.000Z" taxi [bobWhole]).participants =
      some [bobWhole] :=
  createSplitExpense_keeps_shares 1 "2024-05-02T09:00:00.000Z" taxi [bobWhole] (by
    intro p hp
    simp only [List.mem_singleton] at hp
    subst hp
    exact ⟨100, 100, rfl, by norm_num, rfl, by norm_num⟩)

/-- C6, as stated, fails: on an expense of 100 shared by two, Ann has the
sharePercentage 0 and lacks a shareAmount; the claim gives her
shareAmount = 100 × 0 / 100 = 0, while `createSplitExpense` treats her 0 percent as
not specified and returns her with sharePercentage 50 and shareAmount 50. -/
theorem createSplitExpense_fills_shares_counterexample :
    annZero.sharePercentage = some 0 ∧ annZero.shareAmount = none ∧
    taxi.amount * 0 / 100 = 0 ∧
    (createSplitExpense 1 "2024-05-02T09:00:00.000Z" taxi [annZero, bobWhole]).participants =
      some [{ annZero with sharePercentage := some 50, shareAmount := some 50 }, bobWhole] := by
  refine ⟨rfl, rfl, by simp, ?_⟩
  simp [createSplitExpense, calculateParticipant, jsFalsy, orZero, annZero, bobWhole, ann, bob,
    createParticipant, taxi]
  norm_num

/-- C6, amended: for every expense and participant list of length n,
`createSplitExpense` gives each participant lacking a sharePercentage, a
sharePercentage of 0 counting as lacking, the values sharePercentage = 100/n and
shareAmount = expense.amount × (100/n) / 100, and gives each participant that has a
non-zero sharePercentage but lacks a shareAmount (unset or 0) the value
shareAmount = expense.amount × sharePercentage / 100, keeping its sharePercentage. -/
theorem createSplitExpense_fills_shares (splitId : Nat) (now : String) (expense : Expense)
    (ps : List Participant) :
    ∃ out, (createSplitExpense splitId now expense ps).participants = some out ∧
      out.length = ps.length ∧
      ∀ (i : Nat) (p : Participant), ps[i]? = some p → 1 ≤ ps.length ∧
        ∃ q, out[i]? = some q ∧
        ((p.sharePercentage = none ∨ p.sharePercentage = some 0) →
          q.sharePercentage = some (100 / (ps.length : ℚ)) ∧
          q.shareAmount = some (expense.amount * (100 / (ps.length : ℚ)) / 100)) ∧
        (∀ x : ℚ, p.sharePercentage = some x → x ≠ 0 →
          (p.shareAmount = none ∨ p.shareAmount = some 0) →
          q.sharePercentage = some x ∧ q.shareAmount = some (expense.amount * x / 100)) := by
  refine ⟨_, rfl, by simp, ?_⟩
  intro i p hp
  refine ⟨?_, calculateParticipant expense.amount ps.length p, by simp [hp], ?_, ?_⟩
  · have := (List.getElem?_eq_some_iff.1 hp).1
    omega
  · intro h
    have hf := (jsFalsy_iff p.sharePercentage).2 h
    simp [calculateParticipant, hf]
  · intro x hx hx0 h
    have hf := (jsFalsy_iff p.shareAmount).2 h
    simp [calculateParticipant, hx, jsFalsy_some_ne hx0, hf, orZero]

/-- C6, amended, at a concrete input: on an expense of 100 with Ann (no shares) and Bob
(60 percent, no amount), Ann gets 50 percent and 50, Bob gets 60. -/
theorem createSplitExpense_fills_shares_witness :
    ∃ out qa qb,
      (createSplitExpense 1 "2024-05-02T09:00:00.000Z" taxi [ann, bobSixty]).participants =
        some out ∧
      out[0]? = some qa ∧ qa.sharePercentage = some 50 ∧ qa.shareAmount = some 50 ∧
      out[1]? = some qb ∧ qb.sharePercentage = some 60 ∧ qb.shareAmount = some 60 := by
  obtain ⟨out, h1, -, h2⟩ :=
    createSplitExpense_fills_shares 1 "2024-05-02T09:00:00.000Z" taxi [ann, bobSixty]
  obtain ⟨-, qa, ha, ha1, -⟩ := h2 0 ann rfl
  obtain ⟨-, qb, hb, -, hb1⟩ := h2 1 bobSixty rfl
  obtain ⟨ha2, ha3⟩ := ha1 (Or.inl rfl)
  obtain ⟨hb2, hb3⟩ := hb1 60 rfl (by norm_num) (Or.inl rfl)
  refine ⟨out, qa, qb, h1, ha, ?_, ?_, hb, hb2, ?_⟩
  · rw [ha2]; norm_num
  · rw [ha3]; simp [taxi]; norm_num
  · rw [hb3]; simp [taxi]

/-! ## The three methods of `updateShares` -/

/-- C7: for every amount > 0 and every list of n ≥ 1 participants, `updateShares`
with method 'equal' gives every participant sharePercentage = 100/n and
shareAmount = amount/n, whatever shares they carried, and the n amounts add up to
the amount. -/
theorem updateShares_equal_spec (amount : ℚ) (hpos : 0 < amount) (ps : List Participant)
    (hn : 1 ≤ ps.length) :
    ∃ out, updateShares (some amount) "equal" ps = some out ∧
      out.length = ps.length ∧
      (∀ q ∈ out, q.sharePercentage = some (100 / (ps.length : ℚ)) ∧
        q.shareAmount = some (amount / (ps.length : ℚ))) ∧
      totalShareAmount out = amount := by
  have hne : ps ≠ [] := by
    intro h
    simp [h] at hn
  obtain ⟨out, h1, h2⟩ := equal_shares_sum amount ps hne
  refine ⟨out, h1, ?_, ?_, h2⟩
  · rw [updateShares_equal] at h1
    simp only [Option.some.injEq] at h1
    simp [← h1]
  · rw [updateShares_equal] at h1
    simp only [Option.some.injEq] at h1
    intro q hq
    rw [← h1] at hq
    obtain ⟨p, -, rfl⟩ := List.mem_map.1 hq
    exact ⟨rfl, rfl⟩

/-- C7, at a concrete input: 100 between three participants gives each of them
100/3 percent and an amount of 100/3, and the amounts add up to 100. -/
theorem updateShares_equal_spec_witness :
    ∃ out, updateShares (some 100) "equal" [ann, bob, cyd] = some out ∧
      (∀ q ∈ out, q.sharePercentage = some (100 / 3) ∧ q.shareAmount = some (100 / 3)) ∧
      totalShareAmount out = 100 := by
  obtain ⟨out, h1, -, h2, h3⟩ :=
    updateShares_equal_spec 100 (by norm_num) [ann, bob, cyd] (by simp)
  refine ⟨out, h1, ?_, h3⟩
  intro q hq
  have := h2 q hq
  norm_num at this
  exact this

/-- C8, as stated, fails: with amount 100 and the percentages [0, 60, none], Ann's
explicit percentage is 0; the claim leaves it at 0 with shareAmount
100 × 0 / 100 = 0 and gives Cyd, the one participant without a percentage,
(100 − 60) / 1 = 40, while `updateShares` counts Ann's 0 as not assigned and gives
both Ann and Cyd 20 percent and an amount of 20. -/
theorem updateShares_percentage_spec_counterexample :
    annZero.sharePercentage = some 0 ∧
    updateShares (some 100) "percentage" [annZero, bobSixty, cyd] =
      some [{ annZero with sharePercentage := some 20, shareAmount := some 20 },
            { bobSixty with shareAmount := some 60 },
            { cyd with sharePercentage := some 20, shareAmount := some 20 }] := by
  refine ⟨rfl, ?_⟩
  simp [updateShares, totalAssignedPercentage, unassignedPercentageCount, annZero, bobSixty,
    ann, bob, cyd, createParticipant, jsFalsy, orZero]
  norm_num

/-- C8, amended: for every amount > 0 and participant list, `updateShares` with
method 'percentage' gives each participant with an explicit non-zero percentage pct
the amount shareAmount = amount × pct / 100 and leaves pct unchanged, and, when the
explicit percentages total less than 100, gives each of the k ≥ 1 participants
without a percentage, a percentage of 0 counting as none, sharePercentage =
(100 − sum of explicit percentages) / k and shareAmount = amount × that
percentage / 100. -/
theorem updateShares_percentage_spec (amount : ℚ) (hpos : 0 < amount)
    (ps : List Participant) :
    ∃ out, updateShares (some amount) "percentage" ps = some out ∧
      out.length = ps.length ∧
      ∀ (i : Nat) (p : Participant), ps[i]? = some p →
        ∃ q, out[i]? = some q ∧
        (∀ pct : ℚ, p.sharePercentage = some pct → pct ≠ 0 →
          q.sharePercentage = some pct ∧ q.shareAmount = some (amount * pct / 100)) ∧
        ((p.sharePercentage = none ∨ p.sharePercentage = some 0) →
          totalAssignedPercentage ps < 100 →
          1 ≤ unassignedPercentageCount ps ∧
          q.sharePercentage =
            some ((100 - totalAssignedPercentage ps) / unassignedPercentageCount ps) ∧
          q.shareAmount = some (amount *
            ((100 - totalAssignedPercentage ps) / unassignedPercentageCount ps) / 100)) := by
  by_cases hg : 0 < unassignedPercentageCount ps ∧ totalAssignedPercentage ps < 100
  · refine ⟨_, updateShares_percentage_distribute amount ps hg, by simp, ?_⟩
    intro i p hp
    refine ⟨_, by rw [List.getElem?_map, hp]; rfl, ?_, ?_⟩
    · intro pct hpct h0
      simp [hpct, jsFalsy_some_ne h0, orZero]
    · intro h _
      have hf := (jsFalsy_iff p.sharePercentage).2 h
      simp only [hf, if_true, and_self, and_true]
      exact hg.1
  · refine ⟨_, updateShares_percentage_keep amount ps hg, by simp, ?_⟩
    intro i p hp
    refine ⟨_, by rw [List.getElem?_map, hp]; rfl, ?_, ?_⟩
    · intro pct hpct h0
      simp [hpct, orZero]
    · intro h hlt
      exfalso
      apply hg
      refine ⟨?_, hlt⟩
      have hf := (jsFalsy_iff p.sharePercentage).2 h
      have hmem : p ∈ ps.filter fun p => jsFalsy p.sharePercentage :=
        List.mem_filter.2 ⟨List.getElem?_mem hp, hf⟩
      exact List.length_pos_of_mem hmem

/-- C8, amended, at a concrete input: a total of 200 with percentages [60, none, none] gives
the two participants without a percentage 20 percent and an amount of 40 each, and
the first participant keeps 60 percent with an amount of 120. -/
theorem updateShares_percentage_spec_witness :
    ∃ out qa qb qc, updateShares (some 200) "percentage" [annSixty, bob, cyd] = some out ∧
      out[0]? = some qa ∧ qa.sharePercentage = some 60 ∧ qa.shareAmount = some 120 ∧
      out[1]? = some qb ∧ qb.sharePercentage = some 20 ∧ qb.shareAmount = some 40 ∧
      out[2]? = some qc ∧ qc.sharePercentage = some 20 ∧ qc.shareAmount = some 40 := by
  obtain ⟨out, h1, -, h2⟩ :=
    updateShares_percentage_spec 200 (by norm_num) [annSixty, bob, cyd]
  have hT : totalAssignedPercentage [annSixty, bob, cyd] = 60 := by
    simp [totalAssignedPercentage, orZero, annSixty, ann, bob, cyd, createParticipant]
  have hk : unassignedPercentageCount [annSixty, bob, cyd] = 2 := by
    simp [unassignedPercentageCount, jsFalsy, annSixty, ann, bob, cyd, createParticipant]
  obtain ⟨qa, ha, ha1, -⟩ := h2 0 annSixty rfl
  obtain ⟨qb, hb, -, hb1⟩ := h2 1 bob rfl
  obtain ⟨qc, hc, -, hc1⟩ := h2 2 cyd rfl
  obtain ⟨ha2, ha3⟩ := ha1 60 rfl (by norm_num)
  obtain ⟨-, hb2, hb3⟩ := hb1 (Or.inl rfl) (by rw [hT]; norm_num)
  obtain ⟨-, hc2, hc3⟩ := hc1 (Or.inl rfl) (by rw [hT]; norm_num)
  rw [hT, hk] at hb2 hb3 hc2 hc3
  refine ⟨out, qa, qb, qc, h1, ha, ha2, ?_, hb, ?_, ?_, hc, ?_, ?_⟩
  · rw [ha3]; norm_num
  · rw [hb2]; norm_num
  · rw [hb3]; norm_num
  · rw [hc2]; norm_num
  · rw [hc3]; norm_num

/-- C9: for every amount > 0 and participant list whose explicit percentages total
100 or more, `updateShares` with method 'percentage' gives every participant
without an explicit percentage (unset or 0) a shareAmount of 0. -/
theorem updateShares_percentage_full (amount : ℚ) (hpos : 0 < amount)
    (ps : List Participant) (hfull : 100 ≤ totalAssignedPercentage ps) :
    ∃ out, updateShares (some amount) "percentage" ps = some out ∧
      out.length = ps.length ∧
      ∀ (i : Nat) (p : Participant), ps[i]? = some p →
        (p.sharePercentage = none ∨ p.sharePercentage = some 0) →
        ∃ q, out[i]? = some q ∧ q.shareAmount = some 0 := by
  have hg : ¬ (0 < unassignedPercentageCount ps ∧ totalAssignedPercentage ps < 100) := by
    intro h
    exact absurd h.2 (not_lt.2 hfull)
  refine ⟨_, updateShares_percentage_keep amount ps hg, by simp, ?_⟩
  intro i p hp h
  refine ⟨_, by rw [List.getElem?_map, hp]; rfl, ?_⟩
  have hf := (jsFalsy_iff p.sharePercentage).2 h
  simp [orZero_of_jsFalsy hf]

/-- C9, at a concrete input: with Ann at 100 percent of an amount of 100, Bob, who
has no percentage, gets a shareAmount of 0. -/
theorem updateShares_percentage_full_witness :
    100 ≤ totalAssignedPercentage [annAll, bob] ∧
    ∃ out q, updateShares (some 100) "percentage" [annAll, bob] = some out ∧
      out[1]? = some q ∧ q.shareAmount = some 0 := by
  have hT : 100 ≤ totalAssignedPercentage [annAll, bob] := by
    simp [totalAssignedPercentage, orZero, annAll, ann, bob, createParticipant]
  obtain ⟨out, h1, -, h2⟩ :=
    updateShares_percentage_full 100 (by norm_num) [annAll, bob] hT
  obtain ⟨q, hq, hq0⟩ := h2 1 bob rfl (Or.inl rfl)
  exact ⟨hT, out, q, h1, hq, hq0⟩

/-- C10, as stated, fails: with amount 100 and explicit amounts of 60 for Ann and
60 for Bob, Cyd is the one participant without an amount; the claim gives her
(100 − 120) / 1 = −20, while `updateShares` with method 'amount' leaves her
shareAmount unset and sets her sharePercentage to 0. -/
theorem updateShares_amount_spec_counterexample :
    updateShares (some 100) "amount" [annPays60, bobPays60, cyd] =
      some [{ annPays60 with sharePercentage := some 60 },
            { bobPays60 with sharePercentage := some 60 },
            { cyd with sharePercentage := some 0 }] ∧
    unassignedAmountCount [annPays60, bobPays60, cyd] = 1 ∧
    (100 - totalAssignedAmount [annPays60, bobPays60, cyd]) /
      unassignedAmountCount [annPays60, bobPays60, cyd] = -20 ∧
    ({ cyd with sharePercentage := some 0 } : Participant).shareAmount = none := by
  refine ⟨?_, ?_, ?_, rfl⟩
  · simp [updateShares, totalAssignedAmount, unassignedAmountCount, annPays60, bobPays60,
      ann, bob, cyd, createParticipant, jsFalsy, orZero]
    norm_num
  · simp [unassignedAmountCount, annPays60, bobPays60, ann, bob, cyd, createParticipant,
      jsFalsy]
  · simp [totalAssignedAmount, unassignedAmountCount, annPays60, bobPays60, ann, bob, cyd,
      createParticipant, jsFalsy, orZero]
    norm_num

/-- C10, amended: for every amount > 0 and participant list, `updateShares` with
method 'amount' leaves every explicit (non-zero) shareAmount unchanged; when the
explicit amounts total less than the amount it gives each of the k ≥ 1 participants
without an explicit amount (unset or 0) shareAmount = (amount − sum of explicit
amounts) / k, and otherwise it leaves their shareAmount as it was; and it sets
every participant's sharePercentage to shareAmount / amount × 100, an unset
shareAmount counting as 0. -/
theorem updateShares_amount_spec (amount : ℚ) (hpos : 0 < amount) (ps : List Participant) :
    ∃ out, updateShares (some amount) "amount" ps = some out ∧
      out.length = ps.length ∧
      ∀ (i : Nat) (p : Participant), ps[i]? = some p →
        ∃ q, out[i]? = some q ∧
        (∀ x : ℚ, p.shareAmount = some x → x ≠ 0 → q.shareAmount = some x) ∧
        ((p.shareAmount = none ∨ p.shareAmount = some 0) →
          totalAssignedAmount ps < amount →
          1 ≤ unassignedAmountCount ps ∧
          q.shareAmount =
            some ((amount - totalAssignedAmount ps) / unassignedAmountCount ps)) ∧
        ((p.shareAmount = none ∨ p.shareAmount = some 0) →
          ¬ totalAssignedAmount ps < amount → q.shareAmount = p.shareAmount) ∧
        q.sharePercentage = some (orZero q.shareAmount / amount * 100) := by
  by_cases hg : 0 < unassignedAmountCount ps ∧ totalAssignedAmount ps < amount
  · refine ⟨_, updateShares_amount_distribute amount ps hg, by simp, ?_⟩
    intro i p hp
    refine ⟨_, by rw [List.getElem?_map, hp]; rfl, ?_, ?_, ?_, ?_⟩
    · intro x hx h0
      simp [hx, jsFalsy_some_ne h0]
    · intro h _
      have hf := (jsFalsy_iff p.shareAmount).2 h
      simp only [hf, if_true, and_true]
      exact hg.1
    · intro _ hlt
      exact absurd hg.2 hlt
    · by_cases hf : jsFalsy p.shareAmount = true
      · simp [hf, orZero]
      · simp [hf]
  · refine ⟨_, updateShares_amount_keep amount ps hg, by simp, ?_⟩
    intro i p hp
    refine ⟨_, by rw [List.getElem?_map, hp]; rfl, ?_, ?_, ?_, rfl⟩
    · intro x hx _
      exact hx
    · intro h hlt
      exfalso
      apply hg
      refine ⟨?_, hlt⟩
      have hf := (jsFalsy_iff p.shareAmount).2 h
      have hmem : p ∈ ps.filter fun p => jsFalsy p.shareAmount :=
        List.mem_filter.2 ⟨List.getElem?_mem hp, hf⟩
      exact List.length_pos_of_mem hmem
    · intro _ _
      rfl

/-- C10, amended, at a concrete input: with amount 100 and an explicit amount of
40 for Ann, Ann keeps 40 (40 percent) and Bob and Cyd get 30 (30 percent) each. -/
theorem updateShares_amount_spec_witness :
    ∃ out qa qb qc, updateShares (some 100) "amount" [annPays40, bob, cyd] = some out ∧
      out[0]? = some qa ∧ qa.shareAmount = some 40 ∧ qa.sharePercentage = some 40 ∧
      out[1]? = some qb ∧ qb.shareAmount = some 30 ∧ qb.sharePercentage = some 30 ∧
      out[2]? = some qc ∧ qc.shareAmount = some 30 ∧ qc.sharePercentage = some 30 := by
  obtain ⟨out, h1, -, h2⟩ := updateShares_amount_spec 100 (by norm_num) [annPays40, bob, cyd]
  have hT : totalAssignedAmount [annPays40, bob, cyd] = 40 := by
    simp [totalAssignedAmount, orZero, annPays40, ann, bob, cyd, createParticipant]
  have hk : unassignedAmountCount [annPays40, bob, cyd] = 2 := by
    simp [unassignedAmountCount, jsFalsy, annPays40, ann, bob, cyd, createParticipant]
  obtain ⟨qa, ha, ha1, -, -, ha2⟩ := h2 0 annPays40 rfl
  obtain ⟨qb, hb, -, hb1, -, hb2⟩ := h2 1 bob rfl
  obtain ⟨qc, hc, -, hc1, -, hc2⟩ := h2 2 cyd rfl
  have ha3 := ha1 40 rfl (by norm_num)
  obtain ⟨-, hb3⟩ := hb1 (Or.inl rfl) (by rw [hT]; norm_num)
  obtain ⟨-, hc3⟩ := hc1 (Or.inl rfl) (by rw [hT]; norm_num)
  rw [hT, hk] at hb3 hc3
  have hb4 : qb.shareAmount = some 30 := by rw [hb3]; norm_num
  have hc4 : qc.shareAmount = some 30 := by rw [hc3]; norm_num
  refine ⟨out, qa, qb, qc, h1, ha, ha3, ?_, hb, hb4, ?_, hc, hc4, ?_⟩
  · rw [ha2, ha3]; simp [orZero]
  · rw [hb2, hb4]; simp [orZero]
  · rw [hc2, hc4]; simp [orZero]

/-- C11: after `updateShares` with any of the three methods and any amount > 0,
every participant's shares agree: shareAmount = amount × sharePercentage / 100, a
share that is still unset counting as 0. -/
theorem updateShares_shares_agree (amount : ℚ) (hpos : 0 < amount) (method : String)
    (hm : method = "equal" ∨ method = "percentage" ∨ method = "amount")
    (ps : List Participant) :
    ∃ out, updateShares (some amount) method ps = some out ∧
      out.length = ps.length ∧
      ∀ q ∈ out, orZero q.shareAmount = amount * orZero q.sharePercentage / 100 := by
  have ha : amount ≠ 0 := hpos.ne'
  rcases hm with rfl | rfl | rfl
  · refine ⟨_, updateShares_equal amount ps, by simp, ?_⟩
    intro q hq
    obtain ⟨p, -, rfl⟩ := List.mem_map.1 hq
    simp only [orZero]
    ring
  · by_cases hg : 0 < unassignedPercentageCount ps ∧ totalAssignedPercentage ps < 100
    · refine ⟨_, updateShares_percentage_distribute amount ps hg, by simp, ?_⟩
      intro q hq
      obtain ⟨p, -, rfl⟩ := List.mem_map.1 hq
      split_ifs <;> rfl
    · refine ⟨_, updateShares_percentage_keep amount ps hg, by simp, ?_⟩
      intro q hq
      obtain ⟨p, -, rfl⟩ := List.mem_map.1 hq
      rfl
  · by_cases hg : 0 < unassignedAmountCount ps ∧ totalAssignedAmount ps < amount
    · refine ⟨_, updateShares_amount_distribute amount ps hg, by simp, ?_⟩
      intro q hq
      obtain ⟨p, -, rfl⟩ := List.mem_map.1 hq
      split_ifs
      · exact percentage_of_amount amount _ ha
      · exact percentage_of_amount amount _ ha
    · refine ⟨_, updateShares_amount_keep amount ps hg, by simp, ?_⟩
      intro q hq
      obtain ⟨p, -, rfl⟩ := List.mem_map.1 hq
      exact percentage_of_amount amount _ ha

/-- C11, at a concrete input: with amount 100, method 'amount' and an explicit
amount of 40 for Ann, every resulting participant has shareAmount equal to
100 × sharePercentage / 100. -/
theorem updateShares_shares_agree_witness :
    ∃ out, updateShares (some 100) "amount" [annPays40, bob, cyd] = some out ∧
      out.length = 3 ∧
      ∀ q ∈ out, orZero q.shareAmount = 100 * orZero q.sharePercentage / 100 :=
  updateShares_shares_agree 100 (by norm_num) "amount" (Or.inr (Or.inr rfl))
    [annPays40, bob, cyd]

/-! ## Summary of a split -/

/-- C12: for a split whose participants field is a list, `getSplitSummary` returns
paidAmount equal to the sum of shareAmount over the participants with status
'paid', pendingAmount equal to the sum of shareAmount over all other participants,
participantCount equal to the list length, paidCount equal to the number of paid
participants, totalAmount equal to the split's totalAmount, and status equal to
`calculateSplitStatus` of the split (an unset shareAmount counting as 0). -/
theorem getSplitSummary_spec (s : SplitExpense) (ps : List Participant)
    (hs : s.participants = some ps) :
    (getSplitSummary (some s)).paidAmount =
      ((ps.filter fun p => decide (p.status = "paid")).map fun p =>
        orZero p.shareAmount).sum ∧
    (getSplitSummary (some s)).pendingAmount =
      ((ps.filter fun p => decide (p.status ≠ "paid")).map fun p =>
        orZero p.shareAmount).sum ∧
    (getSplitSummary (some s)).participantCount = ps.length ∧
    (getSplitSummary (some s)).paidCount = paidCount ps ∧
    (getSplitSummary (some s)).totalAmount = s.totalAmount ∧
    (getSplitSummary (some s)).status = calculateSplitStatus (some s) := by
  refine ⟨?_, ?_, ?_, ?_, ?_, ?_⟩
  · simp only [getSplitSummary, hs, foldl_add_eq_sum, zero_add]
  · simp only [getSplitSummary, hs, foldl_add_eq_sum, zero_add]
  · simp only [getSplitSummary, hs]
  · simp only [getSplitSummary, hs, paidCount]
  · simp only [getSplitSummary, hs]
  · simp only [getSplitSummary, hs]

/-- C12, at a concrete input: after Ann has paid her 30 of the dinner of 90, the
summary shows 30 paid, 60 pending, three participants, one of them paid, and
status 'partial'. -/
theorem getSplitSummary_spec_witness :
    dinnerAnnPaid.participants = some dinersAnnPaid ∧
    getSplitSummary (some dinnerAnnPaid) =
      { totalAmount := 90
        paidAmount := 30
        pendingAmount := 60
        participantCount := 3
        paidCount := 1
        status := "partial" } := by
  obtain ⟨h1, h2, h3, h4, h5, h6⟩ := getSplitSummary_spec dinnerAnnPaid dinersAnnPaid rfl
  refine ⟨rfl, ?_⟩
  have e : getSplitSummary (some dinnerAnnPaid) =
      { totalAmount := (getSplitSummary (some dinnerAnnPaid)).totalAmount
        paidAmount := (getSplitSummary (some dinnerAnnPaid)).paidAmount
        pendingAmount := (getSplitSummary (some dinnerAnnPaid)).pendingAmount
        participantCount := (getSplitSummary (some dinnerAnnPaid)).participantCount
        paidCount := (getSplitSummary (some dinnerAnnPaid)).paidCount
        status := (getSplitSummary (some dinnerAnnPaid)).status } := rfl
  rw [e, h1, h2, h3, h4, h5, h6]
  simp [dinersAnnPaid, dinnerAnnPaid, dinner, ann, bob, cyd, createParticipant, orZero,
    paidCount, calculateSplitStatus]
  norm_num

/-- C13: for a `null`/`undefined` split and for every split whose participants
field is missing or not a list, `getSplitSummary` returns the zeroed summary:
totalAmount 0, paidAmount 0, pendingAmount 0, participantCount 0, paidCount 0,
status 'pending'. -/
theorem getSplitSummary_degrades :
    getSplitSummary none =
      { totalAmount := 0, paidAmount := 0, pendingAmount := 0, participantCount := 0,
        paidCount := 0, status := "pending" } ∧
    ∀ s : SplitExpense, s.participants = none →
      getSplitSummary (some s) =
        { totalAmount := 0, paidAmount := 0, pendingAmount := 0, participantCount := 0,
          paidCount := 0, status := "pending" } := by
  refine ⟨rfl, ?_⟩
  intro s hs
  simp only [getSplitSummary, hs]
  rfl

/-- C13, at a concrete input: the dinner record without its participants field
has the zeroed summary, whatever its totalAmount. -/
theorem getSplitSummary_degrades_witness :
    dinnerBroken.totalAmount = 90 ∧
    getSplitSummary (some dinnerBroken) =
      { totalAmount := 0, paidAmount := 0, pendingAmount := 0, participantCount := 0,
        paidCount := 0, status := "pending" } :=
  ⟨rfl, getSplitSummary_degrades.2 dinnerBroken rfl⟩

/-! ## Status of one participant -/

/-- C14: for every participant, status and paymentMethod, `updateParticipantStatus`
returns a participant whose status is the new status; when the new status is 'paid'
its paidDate is the current time and its paymentMethod is the given one; when the
new status is anything else its paidDate is the input participant's paidDate. -/
theorem updateParticipantStatus_spec (now : String) (p : Participant) (status : String)
    (paymentMethod : Option String) :
    (updateParticipantStatus now p status paymentMethod).status = status ∧
    (status = "paid" →
      (updateParticipantStatus now p status paymentMethod).paidDate = some now ∧
      (updateParticipantStatus now p status paymentMethod).paymentMethod = paymentMethod) ∧
    (status ≠ "paid" →
      (updateParticipantStatus now p status paymentMethod).paidDate = p.paidDate) := by
  refine ⟨rfl, ?_, ?_⟩
  · intro h
    simp [updateParticipantStatus, h]
  · intro h
    simp [updateParticipantStatus, h]

/-- C14, at a concrete input: marking Bob 'paid' by transfer stamps the time and
stores the method. -/
theorem updateParticipantStatus_spec_witness :
    (updateParticipantStatus "2024-05-03T08:00:00.000Z" bob "paid" (some "transfer")).paidDate =
      some "2024-05-03T08:00:00.000Z" ∧
    (updateParticipantStatus "2024-05-03T08:00:00.000Z" bob "paid"
      (some "transfer")).paymentMethod = some "transfer" :=
  (updateParticipantStatus_spec "2024-05-03T08:00:00.000Z" bob "paid" (some "transfer")).2.1 rfl

/-- C15, as stated, fails: Ann has paid in cash; `updateParticipantStatus` with the
new status 'unpaid' and no paymentMethod resets her paymentMethod to null; and the
participant update of `updatePaymentStatus` with the new status 'declined' and the
paymentMethod 'cash' sets Bob's paymentMethod, which was null, to 'cash'. -/
theorem paymentMethod_kept_counterexample :
    annCash.paymentMethod = some "cash" ∧
    (updateParticipantStatus "2024-05-04T08:00:00.000Z" annCash "unpaid" none).paymentMethod =
      none ∧
    bob.paymentMethod = none ∧
    (updatedParticipant "2024-05-04T08:00:00.000Z" "declined" (some "cash") bob).paymentMethod =
      some "cash" :=
  ⟨rfl, rfl, rfl, rfl⟩

/-- C15, amended: for every participant and every new status, other than 'paid' or
not, `updateParticipantStatus` sets paymentMethod to the given value (null when
none is given), and the participant update inside `updatePaymentStatus` leaves
paymentMethod equal to its previous value when the given paymentMethod is missing
or empty, and sets it to the given value otherwise. -/
theorem paymentMethod_update (now : String) (p : Participant) (status : String)
    (paymentMethod : Option String) :
    (updateParticipantStatus now p status paymentMethod).paymentMethod = paymentMethod ∧
    ((paymentMethod = none ∨ paymentMethod = some "") →
      (updatedParticipant now status paymentMethod p).paymentMethod = p.paymentMethod) ∧
    (∀ m : String, paymentMethod = some m → m ≠ "" →
      (updatedParticipant now status paymentMethod p).paymentMethod = some m) := by
  refine ⟨rfl, ?_, ?_⟩
  · rintro (h | h) <;> simp [updatedParticipant, strFalsy, h]
  · intro m h hm
    simp [updatedParticipant, strFalsy, h, hm]

/-- C15, amended, at a concrete input: un-marking Ann without a paymentMethod
through the update of `updatePaymentStatus` keeps 'cash'. -/
theorem paymentMethod_update_witness :
    (updatedParticipant "2024-05-04T08:00:00.000Z" "unpaid" none annCash).paymentMethod =
      some "cash" :=
  (paymentMethod_update "2024-05-04T08:00:00.000Z" annCash "unpaid" none).2.1 (Or.inl rfl)

/-- C16, as stated, fails: in the cached split `dinnerAnnPaid`, un-marking Ann with
status 'unpaid' and no paymentMethod makes `updatePaymentStatus` write a participant
that keeps the paymentMethod 'cash', while `updateParticipantStatus` applied to the
located participant with the same arguments has paymentMethod null. -/
theorem updatePaymentStatus_refines_counterexample :
    ∃ w q,
      (updatePaymentStatus (some me) [dinnerAnnPaid] store "2024-05-04T08:00:00.000Z"
        (some (.str "s1")) (some (.str "p_1")) "unpaid" none).write = some w ∧
      dinersAnnPaid[0]? = some annCash ∧
      w.participants[0]? = some q ∧
      q.paymentMethod = some "cash" ∧
      (updateParticipantStatus "2024-05-04T08:00:00.000Z" annCash "unpaid" none).paymentMethod =
        none ∧
      q ≠ updateParticipantStatus "2024-05-04T08:00:00.000Z" annCash "unpaid" none := by
  refine ⟨{ docId := "s1"
            participants :=
              [annUnmarked,
               { bob with sharePercentage := some (100 / 3), shareAmount := some 30 },
               { cyd with sharePercentage := some (100 / 3), shareAmount := some 30 }]
            status := "pending"
            updatedAt := "2024-05-04T08:00:00.000Z" },
    annUnmarked, rfl, rfl, rfl, rfl, rfl, ?_⟩
  intro h
  have h2 := congrArg Participant.paymentMethod h
  simp [updateParticipantStatus, annUnmarked, annCash] at h2

/-- C16, amended: for every cached split, participant id found in it, status and
paymentMethod, the participant that `updatePaymentStatus` writes at the index of the
located participant is `updateParticipantStatus(participant, status, paymentMethod)`
when a non-empty paymentMethod is given, and
`updateParticipantStatus(participant, status, participant.paymentMethod)` when the
paymentMethod is missing or empty. -/
theorem updatePaymentStatus_refines (currentUser : Option User)
    (splitExpenses : List SplitExpense) (remote : RemoteStore) (now : String)
    (splitExpenseId participantId : Option JsId) (status : String)
    (paymentMethod : Option String) (w : PaymentWrite)
    (hw : (updatePaymentStatus currentUser splitExpenses remote now splitExpenseId
      participantId status paymentMethod).write = some w) :
    ∃ (splitExpense : SplitExpense) (participants : List Participant) (i : Nat)
      (p : Participant),
      splitExpenses.find? (fun expense =>
        decide (ensureStringId expense.id = ensureStringId splitExpenseId)) = some splitExpense ∧
      splitExpense.participants = some participants ∧
      participants[i]? = some p ∧
      ensureStringId p.id = ensureStringId participantId ∧
      w.participants[i]? = some (updateParticipantStatus now p status
        (if strFalsy paymentMethod then p.paymentMethod else paymentMethod)) ∧
      (∀ m : String, paymentMethod = some m → m ≠ "" →
        w.participants[i]? = some (updateParticipantStatus now p status paymentMethod)) := by
  obtain ⟨s, ps, i, h1, h2, h3, -, h5, -⟩ := updatePaymentStatus_write hw
  obtain ⟨p, hp, hP, -⟩ := findIdx?_eq_some_spec _ ps i h3
  have hq : w.participants[i]? = some (updateParticipantStatus now p status
      (if strFalsy paymentMethod then p.paymentMethod else paymentMethod)) := by
    rw [h5, List.getElem?_modify_eq, hp]
    rfl
  refine ⟨s, ps, i, p, h1, h2, hp, by simpa using hP, hq, ?_⟩
  intro m hm hne
  rw [hq, hm]
  simp [strFalsy, hne]

/-- C16, amended, at a concrete input: marking Ann 'paid' with the method 'cash'
in the cached split `dinner` writes, at the index of the participant with id
'p_1', `updateParticipantStatus` of that participant. -/
theorem updatePaymentStatus_refines_witness :
    ∃ (i : Nat) (p : Participant),
      diners[i]? = some p ∧
      ensureStringId p.id = some "p_1" ∧
      dinersAnnPaid[i]? =
        some (updateParticipantStatus "2024-05-03T08:00:00.000Z" p "paid" (some "cash")) := by
  have hw : (updatePaymentStatus (some me) [dinner] store "2024-05-03T08:00:00.000Z"
      (some (.str "s1")) (some (.str "p_1")) "paid" (some "cash")).write =
      some { docId := "s1", participants := dinersAnnPaid, status := "partial",
             updatedAt := "2024-05-03T08:00:00.000Z" } := rfl
  obtain ⟨s, ps, i, p, h1, h2, hp, hid, -, hm⟩ :=
    updatePaymentStatus_refines (some me) [dinner] store "2024-05-03T08:00:00.000Z"
      (some (.str "s1")) (some (.str "p_1")) "paid" (some "cash") _ hw
  have e1 : [dinner].find? (fun expense =>
      decide (ensureStringId expense.id = ensureStringId (some (.str "s1")))) = some dinner := rfl
  rw [e1] at h1
  have hs : s = dinner := (Option.some.inj h1).symm
  subst hs
  have e2 : dinner.participants = some diners := rfl
  rw [e2] at h2
  have hps : ps = diners := (Option.some.inj h2).symm
  subst hps
  exact ⟨i, p, hp, hid, hm "cash" rfl (by decide)⟩

/-! ## Misses of `updatePaymentStatus` -/

/-- C17: `updatePaymentStatus` returns false and issues no write when no cached
split has the given id (compared as strings), when the located split has no
participant with the given id (compared as strings), and when the remote document
no longer exists or the read of it fails; being a total function, it never
raises. -/
theorem updatePaymentStatus_miss (currentUser : Option User)
    (splitExpenses : List SplitExpense) (remote : RemoteStore) (now : String)
    (splitExpenseId participantId : Option JsId) (status : String)
    (paymentMethod : Option String) :
    ((∀ e ∈ splitExpenses, ensureStringId e.id ≠ ensureStringId splitExpenseId) →
      updatePaymentStatus currentUser splitExpenses remote now splitExpenseId participantId
        status paymentMethod = { ok := false, write := none }) ∧
    (∀ (s : SplitExpense) (ps : List Participant),
      splitExpenses.find? (fun expense =>
        decide (ensureStringId expense.id = ensureStringId splitExpenseId)) = some s →
      s.participants = some ps →
      (∀ p ∈ ps, ensureStringId p.id ≠ ensureStringId participantId) →
      updatePaymentStatus currentUser splitExpenses remote now splitExpenseId participantId
        status paymentMethod = { ok := false, write := none }) ∧
    (remote.getDoc ((ensureStringId splitExpenseId).getD "") ≠ some true →
      updatePaymentStatus currentUser splitExpenses remote now splitExpenseId participantId
        status paymentMethod = { ok := false, write := none }) := by
  refine ⟨?_, ?_, ?_⟩
  · intro h
    have hfind : splitExpenses.find? (fun expense =>
        decide (ensureStringId expense.id = ensureStringId splitExpenseId)) = none := by
      rw [List.find?_eq_none]
      intro e he
      simpa using h e he
    unfold updatePaymentStatus
    split
    · rfl
    · dsimp only
      split_ifs
      · rfl
      · rw [hfind]
  · intro s ps hs hps h
    have hidx : ps.findIdx? (fun p =>
        decide (ensureStringId p.id = ensureStringId participantId)) = none := by
      rw [List.findIdx?_eq_none_iff]
      intro p hp
      simpa using h p hp
    unfold updatePaymentStatus
    split
    · rfl
    · dsimp only
      split_ifs
      · rfl
      · rw [hs]
        dsimp only
        rw [hps]
        dsimp only
        rw [hidx]
  · intro h
    unfold updatePaymentStatus
    split
    · rfl
    · dsimp only
      split_ifs
      · rfl
      · split
        · rfl
        · split
          · rfl
          · split
            · rfl
            · split
              · rfl
              · rfl
              · rename_i hdoc
                exact absurd hdoc h

/-- C17, at a concrete input: with the cached split `dinner`, a request for the
split id 'nope', a request for the participant id 'p_9', and a request against a
store from which the document has gone all return false without a write. -/
theorem updatePaymentStatus_miss_witness :
    updatePaymentStatus (some me) [dinner] store "2024-05-03T08:00:00.000Z"
      (some (.str "nope")) (some (.str "p_1")) "paid" (some "cash") =
        { ok := false, write := none } ∧
    updatePaymentStatus (some me) [dinner] store "2024-05-03T08:00:00.000Z"
      (some (.str "s1")) (some (.str "p_9")) "paid" (some "cash") =
        { ok := false, write := none } ∧
    updatePaymentStatus (some me) [dinner] emptyStore "2024-05-03T08:00:00.000Z"
      (some (.str "s1")) (some (.str "p_1")) "paid" (some "cash") =
        { ok := false, write := none } :=
  ⟨(updatePaymentStatus_miss (some me) [dinner] store "2024-05-03T08:00:00.000Z"
      (some (.str "nope")) (some (.str "p_1")) "paid" (some "cash")).1 (by
        intro e he
        simp only [List.mem_singleton] at he
        subst he
        decide),
    (updatePaymentStatus_miss (some me) [dinner] store "2024-05-03T08:00:00.000Z"
      (some (.str "s1")) (some (.str "p_9")) "paid" (some "cash")).2.1 dinner diners rfl rfl (by
        intro p hp
        simp only [diners, List.mem_cons, List.mem_singleton, List.not_mem_nil, or_false] at hp
        rcases hp with rfl | rfl | rfl <;> decide),
    (updatePaymentStatus_miss (some me) [dinner] emptyStore "2024-05-03T08:00:00.000Z"
      (some (.str "s1")) (some (.str "p_1")) "paid" (some "cash")).2.2 (by
        simp [emptyStore])⟩

/-! ## From pending to settled and back -/

/-- C18: for every split with at least two participants with pairwise distinct
ids (as strings), all 'unpaid': the participant update of `updatePaymentStatus`
with status 'paid', applied to one participant, gives the recomputed status
'partial'; applied to several participants one after the other, it gives 'partial'
as long as some participant has not been marked, and 'settled' once every
participant has been marked. -/
theorem paid_marks_partial_then_settled (s : SplitExpense) (ps : List Participant)
    (hs : s.participants = some ps) (hlen : 2 ≤ ps.length)
    (hnd : (ps.map fun p => ensureStringId p.id).Nodup)
    (hunpaid : ∀ p ∈ ps, p.status = "unpaid") :
    calculateSplitStatus (some s) = "pending" ∧
    (∀ (now : String) (paymentMethod : Option String) (participantId : Option JsId),
      ensureStringId participantId ∈ (ps.map fun p => ensureStringId p.id) →
      ∃ out, updatedParticipants now "paid" paymentMethod (ensureStringId participantId) ps =
          some out ∧
        calculateSplitStatus (some { s with participants := some out }) = "partial") ∧
    (∀ steps : List (String × Option String × Option JsId), steps ≠ [] →
      (∀ st ∈ steps, ensureStringId st.2.2 ∈ (ps.map fun p => ensureStringId p.id)) →
      ∃ out, steps.foldlM (fun acc st =>
          updatedParticipants st.1 "paid" st.2.1 (ensureStringId st.2.2) acc) ps = some out ∧
        ((∃ p ∈ ps, ensureStringId p.id ∉ steps.map (fun st => ensureStringId st.2.2)) →
          calculateSplitStatus (some { s with participants := some out }) = "partial") ∧
        ((∀ p ∈ ps, ensureStringId p.id ∈ steps.map (fun st => ensureStringId st.2.2)) →
          calculateSplitStatus (some { s with participants := some out }) = "settled")) := by
  have hne : ps ≠ [] := by
    intro h
    simp [h] at hlen
  refine ⟨?_, ?_, ?_⟩
  · have h0 : paidCount ps = 0 := by
      rw [paidCount_eq_zero_iff]
      intro p hp
      rw [hunpaid p hp]
      decide
    simp only [calculateSplitStatus, hs, if_pos h0]
  · intro now paymentMethod participantId hmem
    refine ⟨_, updatedParticipants_eq_map now "paid" paymentMethod _ ps hnd hmem, ?_⟩
    obtain ⟨p, hp, hid⟩ := List.mem_map.1 hmem
    apply calculateSplitStatus_partial
    · exact ⟨_, List.mem_map.2 ⟨p, hp, rfl⟩, by rw [if_pos hid]; rfl⟩
    · have hother : ∃ p' ∈ ps, ensureStringId p'.id ≠ ensureStringId participantId := by
        match ps, hlen, hnd with
        | a :: b :: rest, _, hnd' =>
          simp only [List.map_cons, List.nodup_cons, List.mem_cons, not_or] at hnd'
          by_cases ha : ensureStringId a.id = ensureStringId participantId
          · refine ⟨b, by simp, ?_⟩
            intro hb
            exact hnd'.1.1 (ha.trans hb.symm)
          · exact ⟨a, by simp, ha⟩
      obtain ⟨p', hp', hne'⟩ := hother
      refine ⟨_, List.mem_map.2 ⟨p', hp', rfl⟩, ?_⟩
      rw [if_neg hne', hunpaid p' hp']
      decide
  · intro steps hsteps hmem
    exact mark_paid_status s ps hne hnd hunpaid steps hsteps hmem

/-- C18, at a concrete input: in the dinner of three, marking Ann gives 'partial',
marking Ann and Bob leaves 'partial', and marking all three gives 'settled'. -/
theorem paid_marks_partial_then_settled_witness :
    calculateSplitStatus (some dinner) = "pending" ∧
    (∃ out, updatedParticipants "2024-05-03T08:00:00.000Z" "paid" (some "cash")
        (some "p_1") diners = some out ∧
      calculateSplitStatus (some { dinner with participants := some out }) = "partial") ∧
    (∃ out, [("2024-05-03T08:00:00.000Z", some "cash", some (JsId.str "p_1")),
        ("2024-05-04T08:00:00.000Z", none, some (JsId.str "p_2"))].foldlM (fun acc st =>
          updatedParticipants st.1 "paid" st.2.1 (ensureStringId st.2.2) acc) diners = some out ∧
      calculateSplitStatus (some { dinner with participants := some out }) = "partial") ∧
    (∃ out, [("2024-05-03T08:00:00.000Z", some "cash", some (JsId.str "p_1")),
        ("2024-05-04T08:00:00.000Z", none, some (JsId.str "p_2")),
        ("2024-05-05T08:00:00.000Z", some "transfer", some (JsId.str "p_3"))].foldlM
          (fun acc st =>
            updatedParticipants st.1 "paid" st.2.1 (ensureStringId st.2.2) acc) diners =
          some out ∧
      calculateSplitStatus (some { dinner with participants := some out }) = "settled") := by
  have hnd : (diners.map fun p => ensureStringId p.id).Nodup := by decide
  have hunpaid : ∀ p ∈ diners, p.status = "unpaid" := by
    intro p hp
    simp only [diners, List.mem_cons, List.mem_singleton, List.not_mem_nil, or_false] at hp
    rcases hp with rfl | rfl | rfl <;> rfl
  obtain ⟨h0, h1, h2⟩ :=
    paid_marks_partial_then_settled dinner diners rfl (by decide) hnd hunpaid
  refine ⟨h0, h1 _ _ (some (JsId.str "p_1")) (by decide), ?_, ?_⟩
  · obtain ⟨out, ho, hp, -⟩ := h2
      [("2024-05-03T08:00:00.000Z", some "cash", some (JsId.str "p_1")),
        ("2024-05-04T08:00:00.000Z", none, some (JsId.str "p_2"))] (by simp) (by decide)
    exact ⟨out, ho, hp ⟨_, List.mem_cons_of_mem _ (List.mem_cons_of_mem _
      (List.mem_singleton.2 rfl)), by decide⟩⟩
  · obtain ⟨out, ho, -, hq⟩ := h2
      [("2024-05-03T08:00:00.000Z", some "cash", some (JsId.str "p_1")),
        ("2024-05-04T08:00:00.000Z", none, some (JsId.str "p_2")),
        ("2024-05-05T08:00:00.000Z", some "transfer", some (JsId.str "p_3"))] (by simp)
        (by decide)
    refine ⟨out, ho, hq ?_⟩
    intro p hp
    simp only [diners, List.mem_cons, List.mem_singleton, List.not_mem_nil, or_false] at hp
    rcases hp with rfl | rfl | rfl <;> decide

/-- C19: for every settled split with at least two participants, the participant
update of `updatePaymentStatus` applied to one participant with a status other than
'paid' gives the recomputed status 'partial'. -/
theorem settled_regresses (s : SplitExpense) (ps : List Participant)
    (hs : s.participants = some ps) (hlen : 2 ≤ ps.length)
    (hsettled : calculateSplitStatus (some s) = "settled")
    (now : String) (status : String) (paymentMethod : Option String)
    (participantId : Option JsId) (hstatus : status ≠ "paid")
    (hmem : ensureStringId participantId ∈ (ps.map fun p => ensureStringId p.id)) :
    ∃ out, updatedParticipants now status paymentMethod (ensureStringId participantId) ps =
        some out ∧
      calculateSplitStatus (some { s with participants := some out }) = "partial" := by
  have hall : ∀ p ∈ ps, p.status = "paid" := by
    rw [← paidCount_eq_length_iff]
    simp only [calculateSplitStatus, hs] at hsettled
    split_ifs at hsettled with h0 h1
    · exact absurd hsettled (by decide)
    · exact h1
    · exact absurd hsettled (by decide)
  obtain ⟨p0, hp0, hid⟩ := List.mem_map.1 hmem
  have hsome : ps.findIdx? (fun p =>
      decide (ensureStringId p.id = ensureStringId participantId)) ≠ none := by
    rw [Ne, List.findIdx?_eq_none_iff]
    intro h
    simpa [hid] using h p0 hp0
  obtain ⟨i, hi⟩ := Option.ne_none_iff_exists'.1 hsome
  obtain ⟨p, hp, -, -⟩ := findIdx?_eq_some_spec _ ps i hi
  have hilt : i < ps.length := (List.getElem?_eq_some_iff.1 hp).1
  refine ⟨ps.modify (updatedParticipant now status paymentMethod) i, by
    simp only [updatedParticipants, hi], ?_⟩
  apply calculateSplitStatus_partial
  · have hj : ∃ j, j < ps.length ∧ i ≠ j := by
      by_cases h : i = 0
      · exact ⟨1, by omega, by omega⟩
      · exact ⟨0, by omega, h⟩
    obtain ⟨j, hjlt, hij⟩ := hj
    have hq : (ps.modify (updatedParticipant now status paymentMethod) i)[j]? = some ps[j] := by
      rw [List.getElem?_modify_ne _ _ hij]
      exact List.getElem?_eq_getElem hjlt
    exact ⟨ps[j], List.getElem?_mem hq, hall _ (List.getElem_mem _)⟩
  · have hq : (ps.modify (updatedParticipant now status paymentMethod) i)[i]? =
        some (updatedParticipant now status paymentMethod p) := by
      rw [List.getElem?_modify_eq, hp]
      rfl
    exact ⟨_, List.getElem?_mem hq, hstatus⟩

/-- C19, at a concrete input: in the settled dinner, Bob declining gives 'partial'. -/
theorem settled_regresses_witness :
    calculateSplitStatus (some dinnerSettled) = "settled" ∧
    ∃ out, updatedParticipants "2024-05-06T08:00:00.000Z" "declined" none (some "p_2")
        dinersAllPaid = some out ∧
      calculateSplitStatus (some { dinnerSettled with participants := some out }) = "partial" :=
  ⟨by decide,
    settled_regresses dinnerSettled dinersAllPaid rfl (by decide) (by decide)
      "2024-05-06T08:00:00.000Z" "declined" none (some (JsId.str "p_2")) (by decide)
      (by decide)⟩

/-! ## Contacts -/

/-- C20, as stated, fails: the contact list holds Ann under ' ann@example.org',
stored with a leading blank, which equals the new email 'ann@example.org' after
lower-casing and trimming both; `addContact` lower-cases the stored email without
trimming it, finds no match, locally or in the store, and returns true with a
second contact for Ann appended, locally and in the store. -/
theorem addContact_duplicate_counterexample :
    annSpaced ∈ [annSpaced, eveContact] ∧
    toLowerCase (trim annSpaced.email) = toLowerCase (trim "ann@example.org") ∧
    trim "ann@example.org" ≠ "" ∧
    addContact (some me) [annSpaced, eveContact] [annSpaced, eveContact] false (some "c3")
      "2024-05-06T08:00:00.000Z" "Ann B" "ann@example.org" =
      { ok := true
        contacts := [annSpaced, eveContact,
          { id := "c3", name := "Ann B", email := "ann@example.org", userId := "u1",
            createdAt := "2024-05-06T08:00:00.000Z" }]
        stored := [annSpaced, eveContact,
          { id := "c3", name := "Ann B", email := "ann@example.org", userId := "u1",
            createdAt := "2024-05-06T08:00:00.000Z" }] } := by
  refine ⟨by simp, by decide, by decide, by decide⟩

/-- C20, amended: for every contact list and every name and email that is not
blank, if the list already holds a contact whose email carries no surrounding
white space and equals the new email after lower-casing and trimming both,
`addContact` returns false and the contact list, local and stored, is unchanged. -/
theorem addContact_duplicate (currentUser : Option User) (contacts stored : List Contact)
    (getDocsFails : Bool) (addDoc : Option String) (now : String) (name email : String)
    (c : Contact) (hc : c ∈ contacts) (htrim : trim c.email = c.email)
    (hblank : trim email ≠ "")
    (heq : toLowerCase (trim c.email) = toLowerCase (trim email)) :
    addContact currentUser contacts stored getDocsFails addDoc now name email =
      { ok := false, contacts := contacts, stored := stored } := by
  rw [htrim] at heq
  have hce : c.email ≠ "" := by
    intro h
    rw [h] at heq
    exact hblank (toLowerCase_eq_empty heq.symm)
  exact addContact_found currentUser contacts stored getDocsFails addDoc now name email c hc
    hce hblank heq

/-- C20, amended, at a concrete input: with Ann stored under 'ann@example.org',
adding ' Ann@Example.org ' returns false and changes nothing. -/
theorem addContact_duplicate_witness :
    trim annContact.email = annContact.email ∧
    addContact (some me) [annContact, eveContact] [annContact, eveContact] false (some "c3")
      "2024-05-06T08:00:00.000Z" "Ann B" " Ann@Example.org " =
      { ok := false
        contacts := [annContact, eveContact]
        stored := [annContact, eveContact] } :=
  ⟨by decide,
    addContact_duplicate (some me) [annContact, eveContact] [annContact, eveContact] false
      (some "c3") "2024-05-06T08:00:00.000Z" "Ann B" " Ann@Example.org " annContact
      (by simp) (by decide) (by decide) (by decide)⟩

/-! ## Creation of a split -/

/-- C21, at the failing input: the contact list holds Ann only and satisfies the
invariant; the participants are Ann, Bob and Bobby, the last two with the email
'bob@example.org'.  The contact-adding step of `createNewSplitExpense` checks both
against the emails that were stored before the loop, adds a contact for each, and
the resulting list holds two contacts with the same email. -/
theorem contactsAfterSplit_duplicates :
    contactsDeduped [annContact] ∧
    contactsAfterSplit me [annContact] contactIds contactTimes
      (validatedParticipants genId [ann, bob, bobby]) =
      [annContact,
       { id := "c_new_1", name := "Bob", email := "bob@example.org", userId := "u1",
         createdAt := "2024-05-02T09:00:01.000Z" },
       { id := "c_new_2", name := "Bobby", email := "bob@example.org", userId := "u1",
         createdAt := "2024-05-02T09:00:01.000Z" }] ∧
    ¬ contactsDeduped (contactsAfterSplit me [annContact] contactIds contactTimes
      (validatedParticipants genId [ann, bob, bobby])) := by
  refine ⟨by decide, by decide, by decide⟩

/-- C22, as stated, fails: the current user is Ann; the participants are Bob with
a share of 100 and then Ann with a share of 0.  Ann is the creator participant (her
email matches), her shareAmount is 0, and `userShare` is 100, the share of the
first participant, although a participant matches. -/
theorem userShare_zero_creator :
    validatedParticipants genId [bobWhole, annNil] = [bobWhole, annNil] ∧
    creatorParticipant me [bobWhole, annNil] = some annNil ∧
    annNil.shareAmount = some 0 ∧
    userShare me [bobWhole, annNil] = some 100 := by
  refine ⟨?_, ?_, rfl, ?_⟩
  · simp [validatedParticipants, bobWhole, annNil, ann, bob, createParticipant, orZero,
      idFalsy, JsId.toStr]
  · simp [creatorParticipant, truthyString, me, bobWhole, annNil, ann, bob,
      createParticipant]
    decide
  · have hc : creatorParticipant me [bobWhole, annNil] = some annNil := by
      simp [creatorParticipant, truthyString, me, bobWhole, annNil, ann, bob,
        createParticipant]
      decide
    simp only [userShare, hc]
    simp [jsFalsy, annNil, bobWhole]

/-- C22, amended: for every participant list and current user, the `userShare`
that `createNewSplitExpense` computes equals the shareAmount of the creator
participant (the first participant whose email matches the current user's email
after lower-casing both, or whose name equals the current user's name) whenever
that share is not 0, and whenever the creator participant is the first participant
of the list; when no participant matches, or the creator participant is found with
a share that is unset or 0, it equals the first participant's shareAmount, 0 for
an empty list. -/
theorem userShare_spec (currentUser : User) (validated : List Participant) :
    (∀ (c : Participant) (x : ℚ), creatorParticipant currentUser validated = some c →
      c.shareAmount = some x → x ≠ 0 → userShare currentUser validated = some x) ∧
    (∀ (c : Participant) (rest : List Participant), validated = c :: rest →
      creatorParticipant currentUser validated = some c →
      userShare currentUser validated = c.shareAmount) ∧
    (creatorParticipant currentUser validated = none →
      userShare currentUser validated =
        match validated with
        | [] => some 0
        | first :: _ => first.shareAmount) ∧
    (∀ c : Participant, creatorParticipant currentUser validated = some c →
      (c.shareAmount = none ∨ c.shareAmount = some 0) →
      userShare currentUser validated =
        match validated with
        | [] => some 0
        | first :: _ => first.shareAmount) := by
  refine ⟨?_, ?_, ?_, ?_⟩
  · intro c x hc hx hx0
    simp only [userShare, hc, Option.some_bind, hx, jsFalsy_some_ne hx0]
    simp
  · intro c rest hv hc
    by_cases hf : jsFalsy c.shareAmount = true
    · simp only [userShare, hc, Option.some_bind, hf, if_true]
      rw [hv]
    · simp only [userShare, hc, Option.some_bind, hf]
      simp
  · intro hc
    simp only [userShare, hc, Option.none_bind, jsFalsy, if_true]
  · intro c hc hzero
    have hf : jsFalsy c.shareAmount = true := (jsFalsy_iff _).2 hzero
    simp only [userShare, hc, Option.some_bind, hf, if_true]

/-- C22, amended, at a concrete input: with Ann signed in and listed first with a
share of 0, `userShare` is her share, 0; listed second after Bob with a share of
100 it is Bob's share, 100. -/
theorem userShare_spec_witness :
    creatorParticipant me [annNil, bobWhole] = some annNil ∧
    userShare me [annNil, bobWhole] = annNil.shareAmount ∧
    userShare me [bobWhole, annNil] = bobWhole.shareAmount := by
  have hc : creatorParticipant me [annNil, bobWhole] = some annNil := by
    simp [creatorParticipant, truthyString, me, annNil, ann, createParticipant]
  have hc' : creatorParticipant me [bobWhole, annNil] = some annNil := by
    simp [creatorParticipant, truthyString, me, bobWhole, annNil, ann, bob,
      createParticipant]
    decide
  exact ⟨hc, (userShare_spec me [annNil, bobWhole]).2.1 annNil [bobWhole] rfl hc,
    (userShare_spec me [bobWhole, annNil]).2.2.2 annNil hc' (Or.inr rfl)⟩

/-- C23, at the failing input: the current user is Ann, the expense is 100, the
participants are Ann with a share of 0 and Bob with a share of 100.  The record
`baseExpense` carries isSplit = true, userShare = 0 and participantCount = 2; the
document that `addExpense` writes carries isSplit = true and the userShare 100, the
whole amount; and it is the same document whatever the participantCount of the
record it is given, a field it does not write. -/
theorem addExpense_drops_split_fields :
    (baseExpense me "2024-05-02T09:00:00.000Z" taxi [annNil, bobWhole]).isSplit = true ∧
    (baseExpense me "2024-05-02T09:00:00.000Z" taxi [annNil, bobWhole]).userShare = some 0 ∧
    (baseExpense me "2024-05-02T09:00:00.000Z" taxi [annNil, bobWhole]).participantCount = 2 ∧
    addExpense (some me) (some "e1") false "2024-05-02T09:00:00.500Z" "2024-05-02"
      (baseExpense me "2024-05-02T09:00:00.000Z" taxi [annNil, bobWhole]) =
      (some "e1", some
        { category := "Transport"
          amount := 100
          date := "2024-05-02"
          description := "Taxi"
          userId := "u1"
          createdAt := "2024-05-02T09:00:00.500Z"
          isSplit := true
          userShare := 100 }) ∧
    addExpense (some me) (some "e1") false "2024-05-02T09:00:00.500Z" "2024-05-02"
      { baseExpense me "2024-05-02T09:00:00.000Z" taxi [annNil, bobWhole] with
        participantCount := 7 } =
    addExpense (some me) (some "e1") false "2024-05-02T09:00:00.500Z" "2024-05-02"
      (baseExpense me "2024-05-02T09:00:00.000Z" taxi [annNil, bobWhole]) := by
  have hc : creatorParticipant me [annNil, bobWhole] = some annNil := by
    simp [creatorParticipant, truthyString, me, annNil, ann, createParticipant]
  have hu : userShare me [annNil, bobWhole] = some 0 := by
    simp only [userShare, hc]
    simp [jsFalsy, annNil]
  refine ⟨rfl, ?_, rfl, ?_, rfl⟩
  · simp only [baseExpense, hu]
  · simp only [addExpense, newExpense, baseExpense, hu]
    simp [jsFalsy, taxi, me]

/-- C24, as stated, fails: the current user is Ann and the participants are Bob and
Bobby.  No participant matches Ann, so the creator participant identified for
`userShare` is the first one, Bob, by the fallback; yet Bob has an email other than
Ann's and `createNewSplitExpense` sends him the notification. -/
theorem otherParticipants_counterexample :
    validatedParticipants genId [bob, bobby] = [bobListed, bobbyListed] ∧
    creatorParticipant me [bobListed, bobbyListed] = none ∧
    userShare me [bobListed, bobbyListed] = bobListed.shareAmount ∧
    otherParticipants me [bobListed, bobbyListed] = [bobListed, bobbyListed] := by
  have hc : creatorParticipant me [bobListed, bobbyListed] = none := by
    simp [creatorParticipant, truthyString, me, bobListed, bobbyListed, bob, bobby,
      createParticipant]
    decide
  refine ⟨?_, hc, ?_, ?_⟩
  · simp [validatedParticipants, bobListed, bobbyListed, bob, bobby, createParticipant,
      orZero, idFalsy, JsId.toStr]
  · simp only [userShare, hc]
    simp [jsFalsy]
  · simp [otherParticipants, truthyString, me, bobListed, bobbyListed, bob, bobby,
      createParticipant]
    decide

/-- C24, amended: for every participant list and current user, the participants to
whom `createNewSplitExpense` sends a new-split notification are exactly the
participants that have an email which differs, after lower-casing both, from the
current user's non-empty email, in list order; when the current user has no email
nobody is notified; and a creator participant found by its email is not among
them. -/
theorem otherParticipants_spec (currentUser : User) (validated : List Participant) :
    (otherParticipants currentUser validated).Sublist validated ∧
    (∀ p : Participant, p ∈ otherParticipants currentUser validated ↔
      p ∈ validated ∧ p.email ≠ "" ∧
        ∃ email, currentUser.email = some email ∧ email ≠ "" ∧
          toLowerCase p.email ≠ toLowerCase email) ∧
    ((currentUser.email = none ∨ currentUser.email = some "") →
      otherParticipants currentUser validated = []) ∧
    (∀ (p : Participant) (email : String), currentUser.email = some email → email ≠ "" →
      p.email ≠ "" → toLowerCase p.email = toLowerCase email →
      p ∉ otherParticipants currentUser validated) := by
  have hmem : ∀ p : Participant, p ∈ otherParticipants currentUser validated ↔
      p ∈ validated ∧ p.email ≠ "" ∧
        ∃ email, currentUser.email = some email ∧ email ≠ "" ∧
          toLowerCase p.email ≠ toLowerCase email := by
    intro p
    unfold otherParticipants
    rw [List.mem_filter]
    cases he : currentUser.email with
    | none => simp [truthyString]
    | some e =>
      by_cases h0 : e = ""
      · simp [truthyString, h0]
      · simp [truthyString, h0]
  refine ⟨List.filter_sublist _, hmem, ?_, ?_⟩
  · intro h
    apply List.eq_nil_iff_forall_not_mem.2
    intro p hp
    obtain ⟨-, -, e, he, he0, -⟩ := (hmem p).1 hp
    rcases h with h | h
    · rw [h] at he
      exact absurd he (by simp)
    · rw [h] at he
      exact he0 (Option.some.inj he).symm
  · intro p email he _ _ heq hp
    obtain ⟨-, -, e, he', -, hne⟩ := (hmem p).1 hp
    rw [he] at he'
    have : email = e := Option.some.inj he'
    subst this
    exact hne heq

/-- C24, amended, at a concrete input: with Ann signed in and the participants
Ann, Bob and Cyd, where Cyd has no email, the notification goes to Bob only; with a
user without an email it goes to nobody. -/
theorem otherParticipants_spec_witness :
    bob ∈ otherParticipants me [ann, bob, cyd] ∧
    ann ∉ otherParticipants me [ann, bob, cyd] ∧
    cyd ∉ otherParticipants me [ann, bob, cyd] ∧
    otherParticipants guest [ann, bob, cyd] = [] := by
  obtain ⟨-, hmem, hnone, hself⟩ := otherParticipants_spec me [ann, bob, cyd]
  refine ⟨?_, ?_, ?_, (otherParticipants_spec guest [ann, bob, cyd]).2.2.1 (Or.inl rfl)⟩
  · exact (hmem bob).2 ⟨by simp, by decide, "ann@example.org", rfl, by decide, by decide⟩
  · exact hself ann "ann@example.org" rfl (by decide) (by decide) (by decide)
  · intro h
    exact ((hmem cyd).1 h).2.1 rfl

/-! ## Payment reminders -/

/-- C25, at the failing input: Ann is signed in, the split `dinner` is cached, and
the dispatcher rejects the reminder for Bob.  `sendSplitExpenseEmail` reports
success = false, the status map records sent = false, and `sendPaymentReminder`
returns true. -/
theorem sendPaymentReminder_failed_dispatch :
    (sendSplitExpenseEmail
      (some { bob with sharePercentage := some (100 / 3), shareAmount := some 30 })
      (SendOutcome.failed none)).success = false ∧
    sendPaymentReminder (some me) [dinner] (SendOutcome.failed none)
      (some (JsId.str "s1")) (some (JsId.str "p_2")) = { ok := true, sent := some false } ∧
    sendPaymentReminder (some me) [dinner] SendOutcome.sent
      (some (JsId.str "s1")) (some (JsId.str "p_2")) = { ok := true, sent := some true } :=
  ⟨rfl, rfl, rfl⟩

/-! ## Totality of the status -/

/-- C26: `calculateSplitStatus` is total: for a `null`/`undefined` split and for
every split whose participants field is missing or not a list it returns
'pending'. -/
theorem calculateSplitStatus_total :
    calculateSplitStatus none = "pending" ∧
    ∀ s : SplitExpense, s.participants = none → calculateSplitStatus (some s) = "pending" := by
  refine ⟨rfl, ?_⟩
  intro s hs
  simp only [calculateSplitStatus, hs]

/-- C26, at a concrete input: the dinner record without its participants field is
'pending'. -/
theorem calculateSplitStatus_total_witness :
    dinnerBroken.participants = none ∧
    calculateSplitStatus (some dinnerBroken) = "pending" :=
  ⟨rfl, calculateSplitStatus_total.2 dinnerBroken rfl⟩

/-! ## Exact sums of the distributed shares -/

/-- C27: for every amount > 0 and participant list with at least one participant
lacking a percentage (unset or 0) and explicit percentages totalling less than 100,
`updateShares` with method 'percentage' returns participants whose sharePercentage
values sum to exactly 100 and whose shareAmount values sum to exactly the amount. -/
theorem updateShares_percentage_exact (amount : ℚ) (hpos : 0 < amount)
    (ps : List Participant)
    (hlack : ∃ p ∈ ps, p.sharePercentage = none ∨ p.sharePercentage = some 0)
    (hlt : totalAssignedPercentage ps < 100) :
    ∃ out, updateShares (some amount) "percentage" ps = some out ∧
      out.length = ps.length ∧
      (out.map fun q => orZero q.sharePercentage).sum = 100 ∧
      (out.map fun q => orZero q.shareAmount).sum = amount := by
  have hg : 0 < unassignedPercentageCount ps ∧ totalAssignedPercentage ps < 100 :=
    ⟨filter_jsFalsy_pos (fun p => p.sharePercentage) ps hlack, hlt⟩
  obtain ⟨out, h1, h2⟩ := percentage_percentages_sum amount ps hg
  obtain ⟨out', h1', h2'⟩ := percentage_shares_sum amount ps
  rw [h1] at h1'
  have hout : out = out' := Option.some.inj h1'
  subst hout
  rw [if_pos hg] at h2'
  refine ⟨out, h1, ?_, ?_, ?_⟩
  · rw [updateShares_percentage_distribute amount ps hg] at h1
    rw [← Option.some.inj h1]
    simp
  · rw [← totalAssignedPercentage_eq_sum]
    exact h2
  · rw [← totalShareAmount_eq_sum]
    exact h2'

/-- C27, at a concrete input: a total of 200 with percentages [60, none, none]
gives percentages that sum to 100 and amounts that sum to 200. -/
theorem updateShares_percentage_exact_witness :
    ∃ out, updateShares (some 200) "percentage" [annSixty, bob, cyd] = some out ∧
      out.length = 3 ∧
      (out.map fun q => orZero q.sharePercentage).sum = 100 ∧
      (out.map fun q => orZero q.shareAmount).sum = 200 :=
  updateShares_percentage_exact 200 (by norm_num) [annSixty, bob, cyd]
    ⟨bob, by simp, Or.inl rfl⟩ (by
      simp [totalAssignedPercentage, orZero, annSixty, ann, bob, cyd, createParticipant]
      norm_num)

/-- C28: for every amount > 0 and participant list with at least one participant
lacking an amount (unset or 0) and explicit amounts totalling less than the amount,
`updateShares` with method 'amount' returns participants whose shareAmount values
sum to exactly the amount and whose sharePercentage values sum to exactly 100. -/
theorem updateShares_amount_exact (amount : ℚ) (hpos : 0 < amount)
    (ps : List Participant)
    (hlack : ∃ p ∈ ps, p.shareAmount = none ∨ p.shareAmount = some 0)
    (hlt : totalAssignedAmount ps < amount) :
    ∃ out, updateShares (some amount) "amount" ps = some out ∧
      out.length = ps.length ∧
      (out.map fun q => orZero q.shareAmount).sum = amount ∧
      (out.map fun q => orZero q.sharePercentage).sum = 100 := by
  have hg : 0 < unassignedAmountCount ps ∧ totalAssignedAmount ps < amount :=
    ⟨filter_jsFalsy_pos (fun p => p.shareAmount) ps hlack, hlt⟩
  obtain ⟨out, h1, h2⟩ := amount_percentages_sum amount hpos.ne' ps hg
  obtain ⟨out', h1', h2'⟩ := amount_shares_sum amount ps
  rw [h1] at h1'
  have hout : out = out' := Option.some.inj h1'
  subst hout
  rw [if_pos hg] at h2'
  refine ⟨out, h1, ?_, ?_, ?_⟩
  · rw [updateShares_amount_distribute amount ps hg] at h1
    rw [← Option.some.inj h1]
    simp
  · rw [← totalShareAmount_eq_sum]
    exact h2'
  · rw [← totalAssignedPercentage_eq_sum]
    exact h2

/-- C28, at a concrete input: an amount of 100 with an explicit 40 for Ann gives
amounts that sum to 100 and percentages that sum to 100. -/
theorem updateShares_amount_exact_witness :
    ∃ out, updateShares (some 100) "amount" [annPays40, bob, cyd] = some out ∧
      out.length = 3 ∧
      (out.map fun q => orZero q.shareAmount).sum = 100 ∧
      (out.map fun q => orZero q.sharePercentage).sum = 100 :=
  updateShares_amount_exact 100 (by norm_num) [annPays40, bob, cyd]
    ⟨bob, by simp, Or.inl rfl⟩ (by
      simp [totalAssignedAmount, orZero, annPays40, ann, bob, cyd, createParticipant]
      norm_num)

/-! ## Frame of a payment update -/

/-- C29: for every cached split and participant id found in it, the participant
list written by `updatePaymentStatus` has the length of the cached list, agrees
with it at every index other than that of the first participant whose id matches
(as a string), and at that index holds a participant with the same id, name, email,
sharePercentage and shareAmount; so only that participant's status, paymentMethod
and paidDate can change. -/
theorem updatePaymentStatus_frame (currentUser : Option User)
    (splitExpenses : List SplitExpense) (remote : RemoteStore) (now : String)
    (splitExpenseId participantId : Option JsId) (status : String)
    (paymentMethod : Option String) (w : PaymentWrite)
    (hw : (updatePaymentStatus currentUser splitExpenses remote now splitExpenseId
      participantId status paymentMethod).write = some w) :
    ∃ (splitExpense : SplitExpense) (participants : List Participant) (i : Nat)
      (p q : Participant),
      splitExpenses.find? (fun expense =>
        decide (ensureStringId expense.id = ensureStringId splitExpenseId)) = some splitExpense ∧
      splitExpense.participants = some participants ∧
      w.participants.length = participants.length ∧
      participants[i]? = some p ∧
      ensureStringId p.id = ensureStringId participantId ∧
      (∀ (j : Nat) (r : Participant), j < i → participants[j]? = some r →
        ensureStringId r.id ≠ ensureStringId participantId) ∧
      (∀ j : Nat, j ≠ i → w.participants[j]? = participants[j]?) ∧
      w.participants[i]? = some q ∧
      q.id = p.id ∧ q.name = p.name ∧ q.email = p.email ∧
      q.sharePercentage = p.sharePercentage ∧ q.shareAmount = p.shareAmount ∧
      (w.participants.map fun r => (r.id, r.name, r.email, r.sharePercentage, r.shareAmount)) =
        participants.map fun r => (r.id, r.name, r.email, r.sharePercentage, r.shareAmount) := by
  obtain ⟨s, ps, i, h1, h2, h3, -, h5, -⟩ := updatePaymentStatus_write hw
  obtain ⟨p, hp, hP, hfirst⟩ := findIdx?_eq_some_spec _ ps i h3
  refine ⟨s, ps, i, p, updatedParticipant now status paymentMethod p, h1, h2, ?_, hp,
    by simpa using hP, ?_, ?_, ?_, rfl, rfl, rfl, rfl, rfl, ?_⟩
  · rw [h5, List.length_modify]
  · intro j r hj hr
    simpa using hfirst j r hj hr
  · intro j hj
    rw [h5, List.getElem?_modify_ne _ _ (Ne.symm hj)]
  · rw [h5, List.getElem?_modify_eq, hp]
    rfl
  · rw [h5]
    apply List.ext_getElem?
    intro j
    simp only [List.getElem?_map]
    by_cases hj : i = j
    · subst hj
      rw [List.getElem?_modify_eq, hp]
      rfl
    · rw [List.getElem?_modify_ne _ _ hj]

/-- C29, at a concrete input: marking Ann 'paid' in the cached split `dinner`
writes a list of three participants with the ids, names, emails and shares of the
cached ones. -/
theorem updatePaymentStatus_frame_witness :
    dinersAnnPaid.length = 3 ∧
    (dinersAnnPaid.map fun r => (r.id, r.name, r.email, r.sharePercentage, r.shareAmount)) =
      diners.map fun r => (r.id, r.name, r.email, r.sharePercentage, r.shareAmount) := by
  have hw : (updatePaymentStatus (some me) [dinner] store "2024-05-03T08:00:00.000Z"
      (some (.str "s1")) (some (.str "p_1")) "paid" (some "cash")).write =
      some { docId := "s1", participants := dinersAnnPaid, status := "partial",
             updatedAt := "2024-05-03T08:00:00.000Z" } := rfl
  obtain ⟨s, ps, i, p, q, h1, h2, h3, -, -, -, -, -, -, -, -, -, -, h4⟩ :=
    updatePaymentStatus_frame (some me) [dinner] store "2024-05-03T08:00:00.000Z"
      (some (.str "s1")) (some (.str "p_1")) "paid" (some "cash") _ hw
  have e1 : [dinner].find? (fun expense =>
      decide (ensureStringId expense.id = ensureStringId (some (.str "s1")))) = some dinner := rfl
  rw [e1] at h1
  have hs : s = dinner := (Option.some.inj h1).symm
  subst hs
  have e2 : dinner.participants = some diners := rfl
  rw [e2] at h2
  have hps : ps = diners := (Option.some.inj h2).symm
  subst hps
  exact ⟨h3, h4⟩

/-! ## The summary partitions the shares -/

/-- C30: for every split whose participants field is a list, the summary from
`getSplitSummary` partitions the shares: paidAmount + pendingAmount is the sum of
shareAmount over all participants (a missing shareAmount counting as 0),
paidCount ≤ participantCount, and status is 'settled' exactly when
paidCount = participantCount > 0. -/
theorem getSplitSummary_partition (s : SplitExpense) (ps : List Participant)
    (hs : s.participants = some ps) :
    (getSplitSummary (some s)).paidAmount + (getSplitSummary (some s)).pendingAmount =
      (ps.map fun p => orZero p.shareAmount).sum ∧
    (getSplitSummary (some s)).paidCount ≤ (getSplitSummary (some s)).participantCount ∧
    ((getSplitSummary (some s)).status = "settled" ↔
      (getSplitSummary (some s)).paidCount = (getSplitSummary (some s)).participantCount ∧
      0 < (getSplitSummary (some s)).participantCount) := by
  refine ⟨?_, ?_, ?_⟩
  · simp only [getSplitSummary, hs, foldl_add_eq_sum, zero_add]
    exact sum_filter_paid_add _ ps
  · simp only [getSplitSummary, hs]
    exact paidCount_le_length ps
  · have hc : (getSplitSummary (some s)).paidCount = paidCount ps := by
      simp only [getSplitSummary, hs, paidCount]
    have hn : (getSplitSummary (some s)).participantCount = ps.length := by
      simp only [getSplitSummary, hs]
    have hst : (getSplitSummary (some s)).status = calculateSplitStatus (some s) := by
      simp only [getSplitSummary, hs]
    rw [hc, hn, hst]
    simp only [calculateSplitStatus, hs]
    constructor
    · intro h
      split_ifs at h with h0 h1
      · exact absurd h (by decide)
      · exact ⟨h1, by omega⟩
      · exact absurd h (by decide)
    · rintro ⟨h1, h2⟩
      have h0 : paidCount ps ≠ 0 := by omega
      rw [if_neg h0, if_pos h1]

/-- C30, at a concrete input: for the dinner after Ann has paid, 30 + 60 is the sum
of the three shares, one of three has paid, and the status is not 'settled'. -/
theorem getSplitSummary_partition_witness :
    (getSplitSummary (some dinnerAnnPaid)).paidAmount +
      (getSplitSummary (some dinnerAnnPaid)).pendingAmount =
      (dinersAnnPaid.map fun p => orZero p.shareAmount).sum ∧
    (getSplitSummary (some dinnerAnnPaid)).paidCount ≤
      (getSplitSummary (some dinnerAnnPaid)).participantCount ∧
    (getSplitSummary (some dinnerSettled)).status = "settled" :=
  ⟨(getSplitSummary_partition dinnerAnnPaid dinersAnnPaid rfl).1,
    (getSplitSummary_partition dinnerAnnPaid dinersAnnPaid rfl).2.1,
    (getSplitSummary_partition dinnerSettled dinersAllPaid rfl).2.2.2 ⟨by decide, by decide⟩⟩

end Expensy
